import Mathlib

/-!
Verification development for the ragpy chunking-and-embedding pipeline.

The Lean definitions below are a shallow embedding of the Python sources
`scripts/rad_chunk.py` and `scripts/rad_vectordb.py`:

* chunk records (Python dicts) become a structure with `Option`-typed fields
  (`none` models an absent key, and for `embedding` the inner `Option` models
  JSON `null`);
* floating point numbers are modelled as exact rationals (`ℚ`);
* external API calls (OpenAI chat/embedding endpoints, Pinecone/Qdrant
  upserts) are modelled as explicit oracle parameters giving the outcome of
  each call (`none` / `false` models a raised exception);
* `print`-based warnings that matter to the statements are modelled as an
  explicitly returned list of log messages.
-/

namespace Ragpy

/-! ### Generic list helpers (batching and dict-style grouping) -/

/-- Fuel-driven worker for `toBatches` (structural recursion so that the
kernel can evaluate it inside `decide`). -/
def toBatchesF (n : Nat) : Nat → List α → List (List α)
  | 0, _ => []
  | _, [] => []
  | fuel + 1, x :: xs =>
    if n = 0 then []
    else (x :: xs).take n :: toBatchesF n fuel ((x :: xs).drop n)

/-- Split a list into consecutive batches of size `n`
(the Python `l[i:i+n]` slicing loop). -/
def toBatches (n : Nat) (l : List α) : List (List α) := toBatchesF n l.length l

theorem toBatchesF_nil (n fuel : Nat) : toBatchesF n fuel ([] : List α) = [] := by
  cases fuel <;> rfl

theorem toBatchesF_congr (n : Nat) :
    ∀ (fuel fuel' : Nat) (l : List α), l.length ≤ fuel → l.length ≤ fuel' →
      toBatchesF n fuel l = toBatchesF n fuel' l := by
  intro fuel
  induction fuel with
  | zero =>
    intro fuel' l hl _
    obtain rfl : l = [] := List.eq_nil_of_length_eq_zero (Nat.le_zero.mp hl)
    simp [toBatchesF_nil]
  | succ fuel ih =>
    intro fuel' l hl hl'
    cases l with
    | nil => simp [toBatchesF_nil]
    | cons x xs =>
      cases fuel' with
      | zero => simp at hl'
      | succ fuel' =>
        simp only [toBatchesF]
        by_cases hn : n = 0
        · simp [hn]
        · simp only [hn, if_false]
          have hdl : ((x :: xs).drop n).length ≤ fuel := by
            simp only [List.length_drop, List.length_cons]
            simp only [List.length_cons] at hl
            omega
          have hdl' : ((x :: xs).drop n).length ≤ fuel' := by
            simp only [List.length_drop, List.length_cons]
            simp only [List.length_cons] at hl'
            omega
          rw [ih fuel' _ hdl hdl']

theorem toBatches_nil (n : Nat) : toBatches n ([] : List α) = [] := rfl

theorem toBatches_cons (n : Nat) (hn : n ≠ 0) (a : α) (l : List α) :
    toBatches n (a :: l) = (a :: l).take n :: toBatches n ((a :: l).drop n) := by
  unfold toBatches
  simp only [List.length_cons, toBatchesF, hn, if_false]
  congr 1
  exact toBatchesF_congr n _ _ _
    (by simp only [List.length_drop, List.length_cons]; omega) le_rfl

/-- Concatenating the batches gives back the original list. -/
theorem flatten_toBatches (n : Nat) (hn : n ≠ 0) (l : List α) :
    (toBatches n l).flatten = l := by
  cases l with
  | nil => simp [toBatches_nil]
  | cons a l =>
    rw [toBatches_cons n hn, List.flatten_cons,
      flatten_toBatches n hn ((a :: l).drop n), List.take_append_drop]
termination_by l.length
decreasing_by
  simp only [List.length_drop, List.length_cons]
  omega

/-- Python `str.strip()`: drop whitespace from both ends (defined over the
character list so the kernel can evaluate it). -/
def pyStrip (s : String) : String :=
  String.mk (((s.data.dropWhile Char.isWhitespace).reverse.dropWhile
    Char.isWhitespace).reverse)

/-- Python `str.lower()` (defined over the character list so the kernel can
evaluate it). -/
def pyLower (s : String) : String := String.mk (s.data.map Char.toLower)

/-- Append an element to the group keyed `k`, creating the group at the end
if absent (the Python `dict.setdefault`-style grouping loop). -/
def addToGroup [DecidableEq K] (k : K) (x : α) :
    List (K × List α) → List (K × List α)
  | [] => [(k, [x])]
  | (k', g) :: rest =>
    if k = k' then (k', g ++ [x]) :: rest else (k', g) :: addToGroup k x rest

/-- Group a list by a key function, preserving first-seen key order and the
relative order inside each group (Python `dict` insertion-order grouping). -/
def groupByKey [DecidableEq K] (key : α → K) (l : List α) : List (K × List α) :=
  l.foldl (fun acc x => addToGroup (key x) x acc) []

theorem flatten_addToGroup [DecidableEq K] (k : K) (x : α)
    (acc : List (K × List α)) :
    List.Perm (((addToGroup k x acc).map Prod.snd).flatten)
      (((acc.map Prod.snd).flatten) ++ [x]) := by
  induction acc with
  | nil => simp [addToGroup]
  | cons p rest ih =>
    obtain ⟨k', g⟩ := p
    by_cases hk : k = k'
    · simp only [addToGroup, hk, if_true, List.map_cons, List.flatten_cons,
        List.append_assoc, List.singleton_append, if_pos]
      exact List.Perm.append_left g (List.perm_append_singleton x _).symm
    · simp only [addToGroup, hk, if_false, List.map_cons, List.flatten_cons]
      have h2 := List.Perm.append_left g ih
      simpa [List.append_assoc] using h2

theorem flatten_groupByKey_aux [DecidableEq K] (key : α → K) (l : List α)
    (acc : List (K × List α)) :
    List.Perm (((l.foldl (fun acc x => addToGroup (key x) x acc) acc).map
        Prod.snd).flatten)
      ((acc.map Prod.snd).flatten ++ l) := by
  induction l generalizing acc with
  | nil => simp
  | cons a l ih =>
    simp only [List.foldl_cons]
    have h1 := ih (addToGroup (key a) a acc)
    have h2 := List.Perm.append_right l (flatten_addToGroup (key a) a acc)
    have h3 := h1.trans h2
    simpa using h3

/-- Concatenating the groups in first-seen key order is a permutation of the
input list. -/
theorem flatten_groupByKey [DecidableEq K] (key : α → K) (l : List α) :
    List.Perm (((groupByKey key l).map Prod.snd).flatten) l := by
  simpa using flatten_groupByKey_aux key l []

/-! ### Data model: chunk records

A chunk record is a Python dict flowing through the pipeline.  `Option`-typed
fields model `dict.get`: `none` is an absent key.  The `embedding` field is
doubly optional: the outer `Option` models key presence, the inner `Option`
models JSON `null` (the dense stage writes `null` on failure).  `id` is
accessed as `chunk["id"]` (KeyError on absence) by every consumer, so it is a
required field. -/

/-- A value found in the `indices`/`values` lists of a `sparse_embedding`
dict: a JSON integer, float, or string (the Pinecone adapter coerces these
with Python `int()` / `float()`). -/
inductive SpVal where
  | int (n : ℤ)
  | num (q : ℚ)
  | str (s : String)
deriving DecidableEq, Repr

/-- A `sparse_embedding` dict with both required keys present (dicts lacking
`indices` or `values`, and JSON `null`, are modelled as an absent field). -/
structure SparseInput where
  indices : List SpVal
  values : List SpVal
deriving DecidableEq, Repr

abbrev DenseVec := List ℚ

structure ChunkRec where
  id : String
  type' : Option String := none
  title : Option String := none
  authors : Option String := none
  date : Option String := none
  filename : Option String := none
  doc_id : Option String := none
  chunk_index : Option Nat := none
  total_chunks : Option Nat := none
  text : Option String := none
  chunk_text : Option String := none
  ocr_provider : Option String := none
  embedding : Option (Option DenseVec) := none
  sparse_embedding : Option SparseInput := none
deriving DecidableEq, Repr

/-- `chunk.get("embedding")`: `None` both when the key is absent and when the
stored value is JSON `null`. -/
def ChunkRec.getEmbedding (c : ChunkRec) : Option DenseVec :=
  c.embedding.join

/-! ### rad_chunk.py — PART 1: chunking assisted by gpt_recode -/

/-- `gpt_recode_batch` (rad_chunk.py:109-167).  The OpenAI chat calls are
modelled by two oracles giving, per chunk position, the message content
returned by the first-pass concurrent call and by the sequential second-pass
retry (`none` models a raised exception).  The code strips the returned
content and, when both passes fail, falls back to the original chunk text. -/
def gpt_recode_batch (firstPass secondPass : Nat → Option String)
    (chunks : List String) : List String :=
  (List.range chunks.length).map fun idx =>
    match firstPass idx with
    | some content => pyStrip content
    | none =>
      match secondPass idx with
      | some content => pyStrip content
      | none => chunks.getD idx ""

/-! ### rad_chunk.py — chunk store (save_raw_chunks_to_json_incrementally) -/

/-- State of the chunk-store JSON file on disk. -/
inductive StoreFile where
  /-- `os.path.exists` is false. -/
  | missing
  /-- The file exists but `json.load` raises `JSONDecodeError`. -/
  | corrupt
  /-- The file exists and holds a JSON array of chunk records. -/
  | arr (chunks : List ChunkRec)
deriving DecidableEq, Repr

/-- `save_raw_chunks_to_json_incrementally` (rad_chunk.py:169-185), modelled
as a state transformer on the store file.  The second component records
whether the corrupted-file warning was printed. -/
def save_raw_chunks_to_json_incrementally (chunks_to_add : List ChunkRec) :
    StoreFile → StoreFile × Bool
  | .missing => (.arr (([] : List ChunkRec) ++ chunks_to_add), false)
  | .corrupt => (.arr (([] : List ChunkRec) ++ chunks_to_add), true)
  | .arr existing => (.arr (existing ++ chunks_to_add), false)

/-! ### rad_chunk.py — process_document_chunks -/

/-- A document row (one DataFrame row).  Metadata fields are `Option String`
with `none` modelling a pandas `NaN` cell; `texteocr` is the raw text. -/
structure RowData where
  texteocr : String := ""
  type' : Option String := none
  title : Option String := none
  authors : Option String := none
  date : Option String := none
  filename : Option String := none
  texteocr_provider : Option String := none
deriving DecidableEq, Repr

/-- `sanitize_metadata_value` (rad_chunk.py:242-248) on an `Option String`
cell: `NaN` becomes the default `""`, strings pass through. -/
def sanitize_metadata_value (v : Option String) : String := v.getD ""

/-- The chunk-metadata dict built at rad_chunk.py:250-262 for the chunk with
1-based index `idx` and cleaned text `t`. -/
def mkChunkMeta (row : RowData) (provider doc_id : String) (total : Nat)
    (idx : Nat) (t : String) : ChunkRec :=
  { id := doc_id ++ "_" ++ Nat.repr idx
    type' := some (sanitize_metadata_value row.type')
    title := some (sanitize_metadata_value row.title)
    authors := some (sanitize_metadata_value row.authors)
    date := some (sanitize_metadata_value row.date)
    filename := some (sanitize_metadata_value row.filename)
    doc_id := some doc_id
    chunk_index := some idx
    total_chunks := some total
    text := some t
    ocr_provider := some provider }

/-- The batch loop of `process_document_chunks` (rad_chunk.py:217-263):
`start` is the 0-based `start_index` of the current batch (stepping by the
GPT batch size 5), `recode` models `gpt_recode_batch` applied to one batch,
and each cleaned text is paired with `original_chunk_index = start + i + 1`. -/
def processChunkBatches (mk : Nat → String → ChunkRec)
    (recode_required : Bool) (recode : List String → List String) :
    Nat → List (List String) → List ChunkRec
  | _, [] => []
  | start, b :: bs =>
    let cleaned := if recode_required then recode b else b
    (cleaned.enum.map fun p => mk (start + p.1 + 1) p.2) ++
      processChunkBatches mk recode_required recode (start + 5) bs

/-- `process_document_chunks` (rad_chunk.py:187-272).  External pieces are
parameters: `split` models `TEXT_SPLITTER.split_text`, `recode` models one
`gpt_recode_batch` call, and `rand` models the `random.randint(10**11,
10**12 - 1)` draw for `doc_id`.  The incremental save is a separate state
transformer (`save_raw_chunks_to_json_incrementally`); this function returns
the list of chunk records the Python function returns and appends. -/
def process_document_chunks (split : String → List String)
    (recode : List String → List String) (rand : Nat) (row : RowData) :
    List ChunkRec :=
  let text := pyStrip row.texteocr
  if text = "" then []
  else
    let provider := pyLower (pyStrip (sanitize_metadata_value
      row.texteocr_provider))
    let recode_required := provider ≠ "mistral"
    let doc_id := Nat.repr rand
    let text_chunks := split text
    processChunkBatches
      (mkChunkMeta row provider doc_id text_chunks.length)
      recode_required recode 0 (toBatches 5 text_chunks)

/-! ### rad_chunk.py — PART 2: dense chunk embedding -/

/-- `get_embeddings_batch` (rad_chunk.py:301-318).  The two embedding-API
attempts (initial call and the single retry after `time.sleep(2)`) are
modelled by oracles mapping the request payload to the returned vectors
(`none` models a raised exception).  After both attempts fail the function
returns `[None] * len(texts)`. -/
def get_embeddings_batch (attempt retryAttempt : List String → Option (List DenseVec))
    (texts : List String) : List (Option DenseVec) :=
  match attempt texts with
  | some embs => embs.map some
  | none =>
    match retryAttempt texts with
    | some embs => embs.map some
    | none => List.replicate texts.length none

/-- `process_chunks_for_embedding` (rad_chunk.py:320-335): embeds
`chunk.get("text", "")` for a batch and writes the result (vector or `None`)
into each chunk's `"embedding"` key.  The Python loop iterates over the
returned embeddings, so positions at or beyond their count are untouched. -/
def process_chunks_for_embedding
    (attempt retryAttempt : List String → Option (List DenseVec))
    (chunks_batch : List ChunkRec) : List ChunkRec :=
  let texts := chunks_batch.map fun c => c.text.getD ""
  let embeddings := get_embeddings_batch attempt retryAttempt texts
  chunks_batch.enum.map fun p =>
    if p.1 < embeddings.length then
      { p.2 with embedding := some (embeddings.getD p.1 none) }
    else p.2

/-- `generate_and_save_embeddings` (rad_chunk.py:345-403), restricted to the
in-memory collection it builds and finally writes with
`save_processed_chunks_to_json_overwrite`: chunks are grouped by
`chunk.get("doc_id", "unknown_doc")` in dict insertion order, each group is
embedded in batches of `DEFAULT_EMBEDDING_BATCH_SIZE = 32`, and the per-group
results are concatenated. -/
def generate_and_save_embeddings
    (attempt retryAttempt : List String → Option (List DenseVec))
    (all_chunks_from_file : List ChunkRec) : List ChunkRec :=
  let chunks_by_doc := groupByKey (fun c => c.doc_id.getD "unknown_doc")
    all_chunks_from_file
  (chunks_by_doc.map fun g =>
    ((toBatches 32 g.2).map
      (process_chunks_for_embedding attempt retryAttempt)).flatten).flatten

/-! ### rad_chunk.py — PART 3: sparse chunk embedding -/

/-- A spaCy token as consumed by `extract_sparse_features`: its lemma,
part-of-speech tag, and stop-word/punctuation flags.  The spaCy pipeline
itself (`nlp(text)`, including the max-length/50000-character truncation of
its input) is external and abstracted as the token-list input. -/
structure Token where
  lemma' : String
  pos : String
  is_stop : Bool
  is_punct : Bool
deriving DecidableEq, Repr

/-- The lemma list built at rad_chunk.py:428-434: lowercased lemmas of
tokens whose POS is in {NOUN, PROPN, ADJ, VERB}, dropping stop words,
punctuation, and single-character lemmas. -/
def retainedLemmas (tokens : List Token) : List String :=
  (tokens.filter fun t =>
      (t.pos = "NOUN" ∨ t.pos = "PROPN" ∨ t.pos = "ADJ" ∨ t.pos = "VERB") ∧
        t.is_stop = false ∧ t.is_punct = false ∧ t.lemma'.length > 1).map
    fun t => pyLower t.lemma'

/-- Python dict assignment `d[k] = v`: replaces the value in place if the key
exists (keeping its position), otherwise appends the key at the end. -/
def pyDictInsert (k : String) (v : ℚ) :
    List (String × ℚ) → List (String × ℚ)
  | [] => [(k, v)]
  | (k', v') :: rest =>
    if k = k' then (k, v) :: rest else (k', v') :: pyDictInsert k v rest

/-- The iteration order of `collections.Counter(lemmas)`: distinct elements
in order of first occurrence. -/
def counterKeys (l : List String) : List String :=
  l.foldl (fun acc x => if x ∈ acc then acc else acc ++ [x]) []

structure SparseFeatures where
  indices : List String
  values : List ℚ
deriving DecidableEq, Repr

/-- The `sparse_dict` built at rad_chunk.py:437-444: iterate the counter
keys (first-occurrence order), hashing each lemma to a stringified index and
weighting by term frequency; the dict stays empty when nothing was
retained. -/
def sparseDictFor (pyhash : String → ℤ) (lemmas : List String) :
    List (String × ℚ) :=
  if lemmas.length > 0 then
    (counterKeys lemmas).foldl
      (fun d lem =>
        pyDictInsert (toString (pyhash lem % 100000))
          ((lemmas.count lem : ℚ) / (lemmas.length : ℚ)) d)
      []
  else []

/-- `extract_sparse_features` (rad_chunk.py:409-449) after the spaCy call:
counts retained lemmas, maps each to the stringified index
`hash(lemma) % 100000` (Python's opaque string hash is the oracle `pyhash`;
`%` on a positive modulus is non-negative in Python exactly as `Int.emod`),
and weights by term frequency `count / total`. -/
def extract_sparse_features (pyhash : String → ℤ) (tokens : List Token) :
    SparseFeatures :=
  { indices := (sparseDictFor pyhash (retainedLemmas tokens)).map Prod.fst
    values := (sparseDictFor pyhash (retainedLemmas tokens)).map Prod.snd }

/-! ### rad_vectordb.py — generate_uuid (uuid5 over SHA-1)

`generate_uuid` calls `uuid.uuid5(NAMESPACE_DNS, identifier)`, i.e. the
SHA-1 hash of the DNS-namespace bytes followed by the UTF-8 encoding of the
identifier, with the version/variant bits forced.  SHA-1 is embedded in full
over byte lists so the UUIDs are computed, not axiomatised. -/

/-- Truncation to an unsigned 32-bit word. -/
def u32 (x : Nat) : Nat := x % 4294967296

/-- 32-bit left rotation (operand assumed to be a 32-bit word). -/
def rotl (n x : Nat) : Nat := u32 ((x <<< n) ||| (x >>> (32 - n)))

/-- Big-endian byte decomposition of `n` into `k` bytes. -/
def bytesBE (k n : Nat) : List Nat :=
  (List.range k).map fun i => (n >>> (8 * (k - 1 - i))) % 256

/-- SHA-1 message padding: `0x80`, zeros to 56 mod 64, 64-bit bit length. -/
def sha1pad (msg : List Nat) : List Nat :=
  msg ++ 0x80 :: (List.replicate ((119 - msg.length % 64) % 64) 0 ++
    bytesBE 8 (msg.length * 8))

/-- The 16 big-endian 32-bit words of a 64-byte block. -/
def wordsOfBlock (block : List Nat) : Array Nat :=
  ((toBatches 4 block).map fun b => b.foldl (fun a x => a * 256 + x) 0).toArray

/-- Message-schedule extension of the 16 block words to 80 words. -/
def sha1extend (w : Array Nat) : Array Nat :=
  (List.range 64).foldl
    (fun w j =>
      let i := j + 16
      w.push (rotl 1 ((w.getD (i - 3) 0) ^^^ (w.getD (i - 8) 0) ^^^
        (w.getD (i - 14) 0) ^^^ (w.getD (i - 16) 0))))
    w

structure Sha1State where
  a : Nat
  b : Nat
  c : Nat
  d : Nat
  e : Nat

/-- One SHA-1 compression round over a 64-byte block. -/
def sha1compress (h : Sha1State) (block : List Nat) : Sha1State :=
  let w := sha1extend (wordsOfBlock block)
  let final := (List.range 80).foldl
    (fun (st : Sha1State) i =>
      let fk : Nat × Nat :=
        if i < 20 then
          ((st.b &&& st.c) ||| ((st.b ^^^ 0xFFFFFFFF) &&& st.d), 0x5A827999)
        else if i < 40 then (st.b ^^^ st.c ^^^ st.d, 0x6ED9EBA1)
        else if i < 60 then
          ((st.b &&& st.c) ||| (st.b &&& st.d) ||| (st.c &&& st.d), 0x8F1BBCDC)
        else (st.b ^^^ st.c ^^^ st.d, 0xCA62C1D6)
      let temp := u32 (rotl 5 st.a + fk.1 + st.e + fk.2 + w.getD i 0)
      ⟨temp, st.a, rotl 30 st.b, st.c, st.d⟩)
    h
  ⟨u32 (h.a + final.a), u32 (h.b + final.b), u32 (h.c + final.c),
    u32 (h.d + final.d), u32 (h.e + final.e)⟩

/-- SHA-1 of a byte list, as its 20-byte digest. -/
def sha1 (msg : List Nat) : List Nat :=
  let st := (toBatches 64 (sha1pad msg)).foldl sha1compress
    ⟨0x67452301, 0xEFCDAB89, 0x98BADCFE, 0x10325476, 0xC3D2E1F0⟩
  bytesBE 4 st.a ++ bytesBE 4 st.b ++ bytesBE 4 st.c ++ bytesBE 4 st.d ++
    bytesBE 4 st.e

/-- UTF-8 encoding of one scalar value. -/
def utf8Char (c : Char) : List Nat :=
  let n := c.toNat
  if n < 0x80 then [n]
  else if n < 0x800 then [0xC0 ||| (n >>> 6), 0x80 ||| (n &&& 0x3F)]
  else if n < 0x10000 then
    [0xE0 ||| (n >>> 12), 0x80 ||| ((n >>> 6) &&& 0x3F), 0x80 ||| (n &&& 0x3F)]
  else
    [0xF0 ||| (n >>> 18), 0x80 ||| ((n >>> 12) &&& 0x3F),
      0x80 ||| ((n >>> 6) &&& 0x3F), 0x80 ||| (n &&& 0x3F)]

def utf8Bytes (s : String) : List Nat := (s.data.map utf8Char).flatten

/-- The bytes of `uuid.NAMESPACE_DNS` (6ba7b810-9dad-11d1-80b4-00c04fd430c8). -/
def nsDNS : List Nat :=
  [0x6b, 0xa7, 0xb8, 0x10, 0x9d, 0xad, 0x11, 0xd1,
   0x80, 0xb4, 0x00, 0xc0, 0x4f, 0xd4, 0x30, 0xc8]

/-- The 16 bytes of `uuid5(NAMESPACE_DNS, name)`: truncated SHA-1 digest with
the version nibble forced to 5 and the variant bits to `10`. -/
def uuid5Bytes (name : String) : List Nat :=
  ((sha1 (nsDNS ++ utf8Bytes name)).take 16).enum.map fun p =>
    if p.1 = 6 then (p.2 % 16) ||| 0x50
    else if p.1 = 8 then (p.2 % 64) ||| 0x80
    else p.2

def hexChar (n : Nat) : Char :=
  if n < 10 then Char.ofNat (48 + n) else Char.ofNat (87 + n)

def byteHex (b : Nat) : List Char := [hexChar (b / 16), hexChar (b % 16)]

/-- `generate_uuid` (rad_vectordb.py:350-362): `str(uuid5(NAMESPACE_DNS, identifier))`. -/
def generate_uuid (identifier : String) : String :=
  let hx := ((uuid5Bytes identifier).map byteHex).flatten
  String.mk (hx.take 8 ++ '-' :: ((hx.drop 8).take 4 ++ '-' ::
    ((hx.drop 12).take 4 ++ '-' :: ((hx.drop 16).take 4 ++ '-' :: hx.drop 20))))

set_option maxRecDepth 8192 in
/-- Sanity check of the SHA-1 embedding against the standard test vector. -/
theorem sha1_abc :
    sha1 [0x61, 0x62, 0x63] =
      [0xa9, 0x99, 0x3e, 0x36, 0x47, 0x06, 0x81, 0x6a, 0xba, 0x3e,
       0x25, 0x71, 0x78, 0x50, 0xc2, 0x6c, 0x9c, 0xd0, 0xd8, 0x9d] := by
  decide

set_option maxRecDepth 8192 in
/-- Sanity check of the uuid5 embedding against CPython's
`uuid5(NAMESPACE_DNS, "python.org")`. -/
theorem generate_uuid_python_org :
    generate_uuid "python.org" = "886313e1-3b8a-5372-9b90-0c9aee199e5d" := by
  decide

/-! ### rad_vectordb.py — normalize_date_to_rfc3339 -/

/-- A naive-or-aware datetime as produced by `dateutil.parser.parse`:
`tzoff` is the UTC offset in minutes (`none` for a naive datetime). -/
structure ParsedDT where
  year : Nat
  month : Nat
  day : Nat
  hour : Nat
  minute : Nat
  second : Nat
  tzoff : Option Int
deriving DecidableEq, Repr

def digitVal (c : Char) : Nat := c.toNat - 48

def digitsToNat (l : List Char) : Nat :=
  l.foldl (fun a c => a * 10 + digitVal c) 0

/-- Field validation performed by `datetime.datetime` construction inside
`dateutil` (out-of-range fields raise `ValueError`). -/
def mkDT? (y mo d h mi s : Nat) (tz : Option Int) : Option ParsedDT :=
  if y ≤ 9999 ∧ 1 ≤ mo ∧ mo ≤ 12 ∧ 1 ≤ d ∧ d ≤ 31 ∧ h ≤ 23 ∧ mi ≤ 59 ∧
      s ≤ 59 then
    some ⟨y, mo, d, h, mi, s, tz⟩
  else none

def mkOff (sign : Char) (hh mm : List Char) : Option (Option Int) :=
  let h := digitsToNat hh
  let m := digitsToNat mm
  if h ≤ 23 ∧ m ≤ 59 then
    some (some (if sign = '-' then -((h * 60 + m : Nat) : Int)
      else ((h * 60 + m : Nat) : Int)))
  else none

/-- Trailing timezone designator: empty (naive), `Z`, or `±HH:MM`/`±HHMM`. -/
def parseTZ : List Char → Option (Option Int)
  | [] => some none
  | ['Z'] => some (some 0)
  | c :: rest =>
    if c = '+' ∨ c = '-' then
      match rest.span Char.isDigit with
      | ([h1, h2], ':' :: r3) =>
        match r3.span Char.isDigit with
        | ([m1, m2], []) => mkOff c [h1, h2] [m1, m2]
        | _ => none
      | ([h1, h2, m1, m2], []) => mkOff c [h1, h2] [m1, m2]
      | _ => none
    else none

/-- Drop an optional fractional-seconds part (the sub-second digits are
truncated away by `isoformat(timespec="seconds")` anyway). -/
def stripFrac : List Char → Option (List Char)
  | '.' :: rest =>
    match rest.span Char.isDigit with
    | ([], _) => none
    | (_, r) => some r
  | l => some l

/-- Time-of-day part `HH:MM[:SS[.fff]][tz]`. -/
def parseTime (l : List Char) : Option (Nat × Nat × Nat × Option Int) :=
  if (l.span Char.isDigit).1.length = 1 ∨ (l.span Char.isDigit).1.length = 2
  then
    match (l.span Char.isDigit).2 with
    | ':' :: r2 =>
      if (r2.span Char.isDigit).1.length = 2 then
        match (r2.span Char.isDigit).2 with
        | ':' :: r4 =>
          if (r4.span Char.isDigit).1.length = 2 then
            match stripFrac (r4.span Char.isDigit).2 with
            | some r7 =>
              (parseTZ r7).map fun tz =>
                (digitsToNat (l.span Char.isDigit).1,
                  digitsToNat (r2.span Char.isDigit).1,
                  digitsToNat (r4.span Char.isDigit).1, tz)
            | none => none
          else none
        | r4 =>
          (parseTZ r4).map fun tz =>
            (digitsToNat (l.span Char.isDigit).1,
              digitsToNat (r2.span Char.isDigit).1, 0, tz)
      else none
    | _ => none
  else none

/-- Modelled from the spec: the external `dateutil.parser.parse` call of
`normalize_date_to_rfc3339` ("parse leniently"; not part of the repository).
The model covers the numeric formats the function's callers feed it —
`YYYY-MM-DD` / `YYYY/MM/DD` dates (separators may be mixed, as in the
`"YYYY/MM" + "-01"` case-2 path), an optional `THH:MM[:SS[.fff]]` or
` HH:MM[:SS[.fff]]` time, and an optional `Z` / `±HH:MM` / `±HHMM` UTC
offset, which makes the result timezone-aware exactly as `dateutil` does.
Anything else is `none`, modelling `ParserError`/`ValueError`. -/
def dateutilParse (s : String) : Option ParsedDT :=
  if (s.data.span Char.isDigit).1.length = 4 then
    match (s.data.span Char.isDigit).2 with
    | sep1 :: r2 =>
      if sep1 = '-' ∨ sep1 = '/' then
        if (r2.span Char.isDigit).1.length = 1 ∨
            (r2.span Char.isDigit).1.length = 2 then
          match (r2.span Char.isDigit).2 with
          | sep2 :: r4 =>
            if sep2 = '-' ∨ sep2 = '/' then
              if (r4.span Char.isDigit).1.length = 1 ∨
                  (r4.span Char.isDigit).1.length = 2 then
                match (r4.span Char.isDigit).2 with
                | [] =>
                  mkDT? (digitsToNat (s.data.span Char.isDigit).1)
                    (digitsToNat (r2.span Char.isDigit).1)
                    (digitsToNat (r4.span Char.isDigit).1) 0 0 0 none
                | t :: r6 =>
                  if t = 'T' ∨ t = ' ' then
                    match parseTime r6 with
                    | some (h, mi, sec, tz) =>
                      mkDT? (digitsToNat (s.data.span Char.isDigit).1)
                        (digitsToNat (r2.span Char.isDigit).1)
                        (digitsToNat (r4.span Char.isDigit).1) h mi sec tz
                    | none => none
                  else none
              else none
            else none
          | [] => none
        else none
      else none
    | [] => none
  else none

def pad2 (n : Nat) : String := if n < 10 then "0" ++ Nat.repr n else Nat.repr n

def pad4 (n : Nat) : String :=
  if n < 10 then "000" ++ Nat.repr n
  else if n < 100 then "00" ++ Nat.repr n
  else if n < 1000 then "0" ++ Nat.repr n
  else Nat.repr n

/-- The `±HH:MM` suffix Python's `datetime.isoformat` prints for an aware
datetime with the given offset in minutes. -/
def offsetStr (off : Int) : String :=
  (if off < 0 then "-" else "+") ++ pad2 (off.natAbs / 60) ++ ":" ++
    pad2 (off.natAbs % 60)

/-- `dt.isoformat(timespec="seconds")`. -/
def isoformatSec (dt : ParsedDT) : String :=
  pad4 dt.year ++ "-" ++ pad2 dt.month ++ "-" ++ pad2 dt.day ++ "T" ++
    pad2 dt.hour ++ ":" ++ pad2 dt.minute ++ ":" ++ pad2 dt.second ++
    (match dt.tzoff with
     | none => ""
     | some off => offsetStr off)

/-- `re.fullmatch(r"^\d{4}$", t)`. -/
def isYearOnly (t : String) : Bool :=
  t.length = 4 && t.data.all Char.isDigit

/-- The year-month full-match regex of case 2: four digits, one dash or
slash separator, then one or two digits. -/
def isYearMonth (t : String) : Bool :=
  let p := t.data.span Char.isDigit
  p.1.length = 4 &&
    (match p.2 with
     | sep :: rest =>
       (sep = '-' || sep = '/') && rest ≠ [] && rest.length ≤ 2 &&
         rest.all Char.isDigit
     | [] => false)

/-- The argument of `normalize_date_to_rfc3339`: `None`, a non-string value
(e.g. a number), or a string. -/
inductive DateInput where
  | pyNone
  | nonStr
  | pyStr (s : String)
deriving DecidableEq, Repr

/-- `normalize_date_to_rfc3339` (rad_vectordb.py:364-398).  The three cases
mirror the source: year-only, year-month (parsed after appending `-01`,
formatted with `strftime("%Y-%m-%dT00:00:00Z")`), and the general
`parser.parse` path formatted with `isoformat(timespec="seconds") + "Z"`;
every failure falls back to the epoch sentinel. -/
def normalize_date_to_rfc3339 : DateInput → String
  | .pyNone => "1970-01-01T00:00:00Z"
  | .nonStr => "1970-01-01T00:00:00Z"
  | .pyStr s =>
    if pyStrip s = "" then "1970-01-01T00:00:00Z"
    else
      let t := pyStrip s
      if isYearOnly t then t ++ "-01-01T00:00:00Z"
      else if isYearMonth t then
        match dateutilParse (t ++ "-01") with
        | some dt =>
          pad4 dt.year ++ "-" ++ pad2 dt.month ++ "-" ++ pad2 dt.day ++
            "T00:00:00Z"
        | none => "1970-01-01T00:00:00Z"
      else
        match dateutilParse t with
        | some dt => isoformatSec dt ++ "Z"
        | none => "1970-01-01T00:00:00Z"

/-- Sanity checks of the date model against the repository's own unit tests
(`test_rad_vectordb.py::test_normalize_date_to_rfc3339`). -/
theorem normalize_date_matches_repo_tests :
    normalize_date_to_rfc3339 (.pyStr "2023-01-15") = "2023-01-15T00:00:00Z" ∧
    normalize_date_to_rfc3339 (.pyStr "2023/01/15") = "2023-01-15T00:00:00Z" ∧
    normalize_date_to_rfc3339 (.pyStr "2023") = "2023-01-01T00:00:00Z" ∧
    normalize_date_to_rfc3339 (.pyStr "2023-05") = "2023-05-01T00:00:00Z" ∧
    normalize_date_to_rfc3339 (.pyStr "") = "1970-01-01T00:00:00Z" ∧
    normalize_date_to_rfc3339 .pyNone = "1970-01-01T00:00:00Z" ∧
    normalize_date_to_rfc3339 (.pyStr "invalid date") = "1970-01-01T00:00:00Z" ∧
    normalize_date_to_rfc3339 (.pyStr "2023-01-15T10:20:30") =
      "2023-01-15T10:20:30Z" ∧
    normalize_date_to_rfc3339 (.pyStr "2023-01-15T10:20:30.123Z") =
      "2023-01-15T10:20:30+00:00Z" := by
  decide

/-! ### rad_vectordb.py — Pinecone adapter -/

/-- `traverse` with `Option`, written structurally (models applying a Python
conversion to every list element inside a `try` block: any `ValueError` /
`TypeError` fails the whole list). -/
def traverseOpt (f : α → Option β) : List α → Option (List β)
  | [] => some []
  | x :: xs =>
    match f x, traverseOpt f xs with
    | some y, some ys => some (y :: ys)
    | _, _ => none

def decStrToNat? (l : List Char) : Option Nat :=
  if l ≠ [] ∧ l.all Char.isDigit then some (digitsToNat l) else none

/-- Python `int(v)` on a JSON value: truncates floats toward zero, parses
signed decimal strings, raises (`none`) otherwise. -/
def pyInt : SpVal → Option ℤ
  | .int n => some n
  | .num q => some (if q < 0 then -((-q).floor) else q.floor)
  | .str s =>
    match (pyStrip s).data with
    | '-' :: ds => (decStrToNat? ds).map fun n => -(n : ℤ)
    | '+' :: ds => (decStrToNat? ds).map fun n => (n : ℤ)
    | ds => (decStrToNat? ds).map fun n => (n : ℤ)

def decStrToRat? (l : List Char) : Option ℚ :=
  let p := l.span Char.isDigit
  match p.2 with
  | [] => if p.1 = [] then none else some (digitsToNat p.1 : ℚ)
  | '.' :: fs =>
    if fs.all Char.isDigit ∧ (p.1 ≠ [] ∨ fs ≠ []) then
      some ((digitsToNat p.1 : ℚ) + (digitsToNat fs : ℚ) / ((10 : ℚ) ^ fs.length))
    else none
  | _ => none

/-- Python `float(v)` on a JSON value. -/
def pyFloat : SpVal → Option ℚ
  | .int n => some (n : ℚ)
  | .num q => some q
  | .str s =>
    match (pyStrip s).data with
    | '-' :: ds => (decStrToRat? ds).map fun q => -q
    | '+' :: ds => decStrToRat? ds
    | ds => decStrToRat? ds

/-- The fixed metadata subset sent to Pinecone (rad_vectordb.py:70-80). -/
structure PineconeMeta where
  title : String
  authors : String
  date : String
  type' : String
  filename : String
  doc_id : String
  chunk_index : Nat
  total_chunks : Nat
  chunk_text : String
deriving DecidableEq, Repr

def pineconeMetadata (c : ChunkRec) : PineconeMeta :=
  { title := c.title.getD ""
    authors := c.authors.getD ""
    date := c.date.getD ""
    type' := c.type'.getD ""
    filename := c.filename.getD ""
    doc_id := c.doc_id.getD ""
    chunk_index := c.chunk_index.getD 0
    total_chunks := c.total_chunks.getD 0
    chunk_text := c.chunk_text.getD "" }

structure SparseValuesOut where
  indices : List ℤ
  values : List ℚ
deriving DecidableEq, Repr

structure PineconeVector where
  id : String
  values : DenseVec
  metadata : PineconeMeta
  sparse_values : Option SparseValuesOut := none
deriving DecidableEq, Repr

/-- The `vector_data` dict built for one chunk with dense embedding `dense`
(rad_vectordb.py:67-100): metadata subset plus, when the chunk carries a
well-formed `sparse_embedding`, the coerced `sparse_values` (coercion
failure drops the sparse part with a warning but keeps the dense vector). -/
def pineconeVectorFor (chunk : ChunkRec) (dense : DenseVec) : PineconeVector :=
  let vector_data : PineconeVector :=
    { id := chunk.id, values := dense, metadata := pineconeMetadata chunk }
  match chunk.sparse_embedding with
  | some sp =>
    match traverseOpt pyInt sp.indices, traverseOpt pyFloat sp.values with
    | some is, some fs => { vector_data with sparse_values := some ⟨is, fs⟩ }
    | _, _ => vector_data
  | none => vector_data

theorem pineconeVectorFor_values (c : ChunkRec) (d : DenseVec) :
    (pineconeVectorFor c d).values = d ∧ (pineconeVectorFor c d).id = c.id := by
  unfold pineconeVectorFor
  rcases c.sparse_embedding with _ | sp
  · exact ⟨rfl, rfl⟩
  · dsimp only
    split
    · exact ⟨rfl, rfl⟩
    · exact ⟨rfl, rfl⟩

/-- `prepare_vectors_for_pinecone` (rad_vectordb.py:51-106).  Returns the
prepared vector list together with the ids of the chunks skipped with the
"Embedding dense manquant" warning (modelling the `print` calls in the
`else` branch). -/
def prepare_vectors_for_pinecone :
    List ChunkRec → List PineconeVector × List String
  | [] => ([], [])
  | chunk :: rest =>
    let r := prepare_vectors_for_pinecone rest
    match chunk.getEmbedding with
    | some dense => (pineconeVectorFor chunk dense :: r.1, r.2)
    | none => (r.1, chunk.id :: r.2)

/-- `upsert_batch_to_pinecone` (rad_vectordb.py:21-49): the first upsert
attempt, and on exception one retry after `time.sleep(2)`.  `attemptOk` /
`retryOk` model whether each `index.upsert` call raises. -/
def upsert_batch_to_pinecone (attemptOk retryOk : Bool) : Bool :=
  if attemptOk then true
  else if retryOk then true
  else false

/-- The per-document, size-100 batch sequence the Pinecone insertion loop
walks (rad_vectordb.py:254-269): group by `chunk.get("doc_id",
"unknown_document")` in dict order, then slice each group by
`PINECONE_BATCH_SIZE = 100`. -/
def pineconeBatchPlan (all_chunks : List ChunkRec) : List (List ChunkRec) :=
  ((groupByKey (fun c => c.doc_id.getD "unknown_document") all_chunks).map
    fun g => toBatches 100 g.2).flatten

/-- The upsert loop body (rad_vectordb.py:268-282): prepare each batch, skip
empty preparations, and record `(prepared size, upsert outcome)` per actual
upsert call.  `oracle k` gives the (attempt, retry) outcomes of the `k`-th
`upsert_batch_to_pinecone` call. -/
def pineconeRunBatches (oracle : Nat → Bool × Bool) :
    Nat → List (List ChunkRec) → List (Nat × Bool)
  | _, [] => []
  | k, b :: bs =>
    let vectors_to_upsert := (prepare_vectors_for_pinecone b).1
    if vectors_to_upsert.isEmpty then pineconeRunBatches oracle k bs
    else
      (vectors_to_upsert.length,
        upsert_batch_to_pinecone (oracle k).1 (oracle k).2) ::
        pineconeRunBatches oracle (k + 1) bs

structure PineconeResult where
  status : String
  inserted_count : Nat
deriving DecidableEq, Repr

/-- `insert_to_pinecone` (rad_vectordb.py:108-300) from the point where the
chunk file has been loaded (the earlier connection/index/file checks all
return `{"status": "error", "inserted_count": 0}` without touching data and
are outside the modelled scope; the human-readable `message` field is
likewise omitted).  Mirrors the accumulation of `total_inserted_count`,
`total_processed_chunks` and `any_batch_failed` and the final status
selection (rad_vectordb.py:261-300). -/
def insert_to_pinecone_core (oracle : Nat → Bool × Bool)
    (all_chunks : List ChunkRec) : PineconeResult :=
  if (pineconeRunBatches oracle 0 (pineconeBatchPlan all_chunks)).any
      (fun p => !p.2) then
    { status := "partial_error"
      inserted_count := ((pineconeRunBatches oracle 0
        (pineconeBatchPlan all_chunks)).map
          fun p => if p.2 then p.1 else 0).sum }
  else if ((pineconeRunBatches oracle 0 (pineconeBatchPlan all_chunks)).map
      (fun p => if p.2 then p.1 else 0)).sum = 0 ∧ all_chunks.length > 0 then
    { status := "error"
      inserted_count := ((pineconeRunBatches oracle 0
        (pineconeBatchPlan all_chunks)).map
          fun p => if p.2 then p.1 else 0).sum }
  else if ((pineconeRunBatches oracle 0 (pineconeBatchPlan all_chunks)).map
      (fun p => if p.2 then p.1 else 0)).sum <
      ((pineconeBatchPlan all_chunks).map List.length).sum then
    { status := "success_partial_data"
      inserted_count := ((pineconeRunBatches oracle 0
        (pineconeBatchPlan all_chunks)).map
          fun p => if p.2 then p.1 else 0).sum }
  else
    { status := "success"
      inserted_count := ((pineconeRunBatches oracle 0
        (pineconeBatchPlan all_chunks)).map
          fun p => if p.2 then p.1 else 0).sum }

/-! ### rad_vectordb.py — Qdrant adapter -/

/-- The payload stored with each Qdrant point (rad_vectordb.py:591-602). -/
structure QdrantPayload where
  original_id : String
  title : String
  authors : String
  date : String
  type' : String
  filename : String
  doc_id : String
  chunk_index : Nat
  total_chunks : Nat
  chunk_text : String
deriving DecidableEq, Repr

structure PointStruct where
  id : String
  vector : DenseVec
  payload : QdrantPayload
deriving DecidableEq, Repr

def qdrantPayload (c : ChunkRec) : QdrantPayload :=
  { original_id := c.id
    title := c.title.getD ""
    authors := c.authors.getD ""
    date := c.date.getD ""
    type' := c.type'.getD ""
    filename := c.filename.getD ""
    doc_id := c.doc_id.getD ""
    chunk_index := c.chunk_index.getD 0
    total_chunks := c.total_chunks.getD 0
    chunk_text := c.chunk_text.getD "" }

/-- `prepare_points_for_qdrant` (rad_vectordb.py:564-614).  Returns the
prepared points together with the ids of the chunks skipped with the
"Embedding dense manquant" warning. -/
def prepare_points_for_qdrant : List ChunkRec → List PointStruct × List String
  | [] => ([], [])
  | chunk :: rest =>
    let r := prepare_points_for_qdrant rest
    match chunk.getEmbedding with
    | some dense =>
      ({ id := generate_uuid chunk.id, vector := dense,
          payload := qdrantPayload chunk } :: r.1, r.2)
    | none => (r.1, chunk.id :: r.2)

/-! ### Claim C1 — null-embedding exclusion in the adapters -/

/-- C1: for every chunk collection passed to the Pinecone / Qdrant
preparation step, no chunk whose embedding is null or absent appears in the
prepared vectors/points (every prepared record carries the dense embedding
of a chunk of the collection), each null-embedding chunk is skipped with one
logged warning (in order), and the number of prepared records equals the
number of chunks with a non-null embedding. -/
theorem C1_null_embedding_exclusion (chunks : List ChunkRec) :
    (prepare_vectors_for_pinecone chunks).1.length =
        chunks.countP (fun c => c.getEmbedding.isSome) ∧
    (prepare_vectors_for_pinecone chunks).2 =
        (chunks.filter fun c => c.getEmbedding.isNone).map ChunkRec.id ∧
    (∀ v ∈ (prepare_vectors_for_pinecone chunks).1,
      ∃ c, c ∈ chunks ∧ c.getEmbedding = some v.values ∧ v.id = c.id) ∧
    (prepare_points_for_qdrant chunks).1.length =
        chunks.countP (fun c => c.getEmbedding.isSome) ∧
    (prepare_points_for_qdrant chunks).2 =
        (chunks.filter fun c => c.getEmbedding.isNone).map ChunkRec.id ∧
    (∀ p ∈ (prepare_points_for_qdrant chunks).1,
      ∃ c, c ∈ chunks ∧ c.getEmbedding = some p.vector ∧
        p.id = generate_uuid c.id ∧ p.payload.original_id = c.id) := by
  induction chunks with
  | nil =>
    simp [prepare_vectors_for_pinecone, prepare_points_for_qdrant]
  | cons chunk rest ih =>
    obtain ⟨ih1, ih2, ih3, ih4, ih5, ih6⟩ := ih
    rcases hc : chunk.getEmbedding with _ | dense
    · have hpv : prepare_vectors_for_pinecone (chunk :: rest) =
          ((prepare_vectors_for_pinecone rest).1,
            chunk.id :: (prepare_vectors_for_pinecone rest).2) := by
        simp only [prepare_vectors_for_pinecone, hc]
      have hqp : prepare_points_for_qdrant (chunk :: rest) =
          ((prepare_points_for_qdrant rest).1,
            chunk.id :: (prepare_points_for_qdrant rest).2) := by
        simp only [prepare_points_for_qdrant, hc]
      refine ⟨?_, ?_, ?_, ?_, ?_, ?_⟩
      · rw [hpv]; simpa [List.countP_cons, hc] using ih1
      · rw [hpv]; simp [List.filter_cons, hc, ih2]
      · rw [hpv]
        intro v hv
        obtain ⟨c, hcm, h1, h2⟩ := ih3 v hv
        exact ⟨c, List.mem_cons_of_mem _ hcm, h1, h2⟩
      · rw [hqp]; simpa [List.countP_cons, hc] using ih4
      · rw [hqp]; simp [List.filter_cons, hc, ih5]
      · rw [hqp]
        intro p hp
        obtain ⟨c, hcm, h1, h2, h3⟩ := ih6 p hp
        exact ⟨c, List.mem_cons_of_mem _ hcm, h1, h2, h3⟩
    · have hpv : prepare_vectors_for_pinecone (chunk :: rest) =
          (pineconeVectorFor chunk dense ::
            (prepare_vectors_for_pinecone rest).1,
            (prepare_vectors_for_pinecone rest).2) := by
        simp only [prepare_vectors_for_pinecone, hc]
      have hqp : prepare_points_for_qdrant (chunk :: rest) =
          ({ id := generate_uuid chunk.id, vector := dense,
              payload := qdrantPayload chunk } ::
            (prepare_points_for_qdrant rest).1,
            (prepare_points_for_qdrant rest).2) := by
        simp only [prepare_points_for_qdrant, hc]
      refine ⟨?_, ?_, ?_, ?_, ?_, ?_⟩
      · rw [hpv]; simpa [List.countP_cons, hc] using ih1
      · rw [hpv]; simp [List.filter_cons, hc, ih2]
      · rw [hpv]
        intro v hv
        rcases List.mem_cons.mp hv with rfl | hv'
        · obtain ⟨h1, h2⟩ := pineconeVectorFor_values chunk dense
          exact ⟨chunk, List.mem_cons_self _ _, by rw [h1, hc], h2⟩
        · obtain ⟨c, hcm, h1, h2⟩ := ih3 v hv'
          exact ⟨c, List.mem_cons_of_mem _ hcm, h1, h2⟩
      · rw [hqp]; simpa [List.countP_cons, hc] using ih4
      · rw [hqp]; simp [List.filter_cons, hc, ih5]
      · rw [hqp]
        intro p hp
        rcases List.mem_cons.mp hp with rfl | hp'
        · exact ⟨chunk, List.mem_cons_self _ _, by rw [hc], rfl, rfl⟩
        · obtain ⟨c, hcm, h1, h2, h3⟩ := ih6 p hp'
          exact ⟨c, List.mem_cons_of_mem _ hcm, h1, h2, h3⟩

/-! ### Claim C3 — chunk-store merge and corruption recovery -/

/-- C3: appending batch `B1` and then batch `B2` to a chunk-store file that
does not yet exist yields exactly `B1 ++ B2` in append order (with no
corruption warning), while appending to a file whose content is not valid
JSON logs the warning and keeps only the newly appended batch. -/
theorem C3_store_merge_correctness (B1 B2 B : List ChunkRec) :
    (save_raw_chunks_to_json_incrementally B2
        (save_raw_chunks_to_json_incrementally B1 .missing).1) =
      (.arr (B1 ++ B2), false) ∧
    (save_raw_chunks_to_json_incrementally B1 .missing).2 = false ∧
    save_raw_chunks_to_json_incrementally B .corrupt = (.arr B, true) := by
  simp [save_raw_chunks_to_json_incrementally]

/-! ### Claim C5 — recoding retry and byte-identical fallback -/

/-- C5: `gpt_recode_batch` returns one entry per input chunk; a chunk whose
first-pass call raises is retried (the entry is the stripped content of the
single sequential retry when it succeeds), and when the retry also raises
the entry at that chunk's position is the original input chunk text itself —
not `null`, not stripped, not an error string. -/
theorem C5_recode_fallback (firstPass secondPass : Nat → Option String)
    (chunks : List String) :
    (gpt_recode_batch firstPass secondPass chunks).length = chunks.length ∧
    (∀ i, i < chunks.length →
      (∀ content, firstPass i = some content →
        (gpt_recode_batch firstPass secondPass chunks).getD i "" =
          pyStrip content) ∧
      (∀ content, firstPass i = none → secondPass i = some content →
        (gpt_recode_batch firstPass secondPass chunks).getD i "" =
          pyStrip content) ∧
      (firstPass i = none → secondPass i = none →
        (gpt_recode_batch firstPass secondPass chunks).getD i "" =
          chunks.getD i "")) := by
  constructor
  · simp [gpt_recode_batch]
  · intro i hi
    have hval : (gpt_recode_batch firstPass secondPass chunks).getD i "" =
        (match firstPass i with
         | some content => pyStrip content
         | none =>
           match secondPass i with
           | some content => pyStrip content
           | none => chunks.getD i "") := by
      unfold gpt_recode_batch
      rw [List.getD_eq_getElem?_getD, List.getElem?_map, List.getElem?_range hi]
      rfl
    refine ⟨?_, ?_, ?_⟩
    · intro content h1
      rw [hval, h1]
    · intro content h1 h2
      rw [hval, h1, h2]
    · intro h1 h2
      rw [hval, h1, h2]

/-- Closed witness for C5: with a first pass that raises on chunk 1 and on
chunk 2, and a retry that succeeds on chunk 1 only, the batch keeps one
entry per chunk, cleans chunk 1 with the retry content, and falls back to
the original text of chunk 2. -/
theorem C5_recode_fallback_witness :
    (gpt_recode_batch
        (fun i => if i = 0 then some " texte nettoyé zéro " else none)
        (fun i => if i = 1 then some " texte nettoyé un " else none)
        ["brut zéro", "brut un", "brut deux"]).length = 3 ∧
    (gpt_recode_batch
        (fun i => if i = 0 then some " texte nettoyé zéro " else none)
        (fun i => if i = 1 then some " texte nettoyé un " else none)
        ["brut zéro", "brut un", "brut deux"]).getD 1 "" =
      pyStrip " texte nettoyé un " ∧
    (gpt_recode_batch
        (fun i => if i = 0 then some " texte nettoyé zéro " else none)
        (fun i => if i = 1 then some " texte nettoyé un " else none)
        ["brut zéro", "brut un", "brut deux"]).getD 2 "" = "brut deux" := by
  have h := C5_recode_fallback
    (fun i => if i = 0 then some " texte nettoyé zéro " else none)
    (fun i => if i = 1 then some " texte nettoyé un " else none)
    ["brut zéro", "brut un", "brut deux"]
  refine ⟨h.1, ?_, ?_⟩
  · exact (h.2 1 (by decide)).2.1 " texte nettoyé un " (by decide) (by decide)
  · exact (h.2 2 (by decide)).2.2 (by decide) (by decide)

/-! ### Claim C9 — deterministic, discriminating stable identifiers -/

set_option maxRecDepth 8192 in
/-- C9: `generate_uuid` is deterministic (same chunk id, same identifier,
hence idempotent upserts across runs) and maps the distinct inputs `"x"`
and `"y"` to distinct identifiers. -/
theorem C9_generate_uuid_stable :
    (∀ x : String, generate_uuid x = generate_uuid x) ∧
      generate_uuid "x" ≠ generate_uuid "y" := by
  refine ⟨fun x => rfl, ?_⟩
  decide

/-! ### Claim C7 — Qdrant point identity and payload -/

/-- A chunk exactly as emitted by the chunking stage
(`process_document_chunks` stores the cleaned text under the key `"text"`
and creates no `"chunk_text"` key), after the dense stage added an
embedding. -/
def c7PipelineChunk : ChunkRec :=
  { id := "527505526316_1"
    type' := some ""
    title := some ""
    authors := some ""
    date := some ""
    filename := some ""
    doc_id := some "527505526316"
    chunk_index := some 1
    total_chunks := some 1
    text := some "Contenu nettoyé du chunk."
    ocr_provider := some ""
    embedding := some (some [1, 0]) }

/-- C7 (evaluation at the failing input): for a pipeline-produced chunk the
prepared Qdrant point does use the stable namespace-UUID of the chunk id as
point id and carries the original chunk id under `original_id`, but its
payload's `chunk_text` is `""` — the chunk's full text (stored under the
`text` key by rad_chunk.py:260, while rad_vectordb.py:601 reads the
`chunk_text` key) is *not* carried, contradicting the claim. -/
theorem C7_qdrant_payload_drops_pipeline_text :
    (prepare_points_for_qdrant [c7PipelineChunk]).1 =
      [{ id := generate_uuid "527505526316_1"
         vector := [1, 0]
         payload :=
           { original_id := "527505526316_1"
             title := ""
             authors := ""
             date := ""
             type' := ""
             filename := ""
             doc_id := "527505526316"
             chunk_index := 1
             total_chunks := 1
             chunk_text := "" } }] ∧
    c7PipelineChunk.text = some "Contenu nettoyé du chunk." ∧
    c7PipelineChunk.chunk_text = none := by
  refine ⟨?_, rfl, rfl⟩
  rfl

/-! ### Decimal representation facts (`str(n)` in Python, `Nat.repr` here) -/

theorem digitChar_isDigit : ∀ m : Nat, m < 10 →
    (Nat.digitChar m).isDigit = true := by
  decide

theorem toDigitsCore_all_digits : ∀ (fuel n : Nat) (acc : List Char),
    acc.all Char.isDigit = true →
    (Nat.toDigitsCore 10 fuel n acc).all Char.isDigit = true := by
  intro fuel
  induction fuel with
  | zero => intro n acc h; simpa [Nat.toDigitsCore] using h
  | succ fuel ih =>
    intro n acc h
    have hd : (Nat.digitChar (n % 10) :: acc).all Char.isDigit = true := by
      simp only [List.all_cons, h, Bool.and_true]
      exact digitChar_isDigit _ (Nat.mod_lt _ (by norm_num))
    simp only [Nat.toDigitsCore]
    split
    · exact hd
    · exact ih _ _ hd

theorem toDigitsCore_length_eq : ∀ (fuel n : Nat), n < fuel →
    (Nat.toDigitsCore 10 fuel n []).length = Nat.log 10 n + 1 := by
  intro fuel
  induction fuel with
  | zero => intro n h; omega
  | succ fuel ih =>
    intro n h
    simp only [Nat.toDigitsCore]
    split
    · rename_i hdiv
      have hn : n < 10 := by omega
      have : Nat.log 10 n = 0 := Nat.log_eq_zero_iff.mpr (Or.inl hn)
      simp [this]
    · rename_i hdiv
      have h10 : 10 ≤ n := by omega
      rw [Nat.toDigitsCore_lens_eq]
      rw [ih (n / 10) (by
        have h1 : n / 10 < n := Nat.div_lt_self (by omega) (by norm_num)
        omega)]
      rw [Nat.log_div_base]
      have hpos : 0 < Nat.log 10 n := Nat.log_pos (by norm_num) h10
      omega

theorem repr_data_eq (n : Nat) :
    (Nat.repr n).data = Nat.toDigitsCore 10 (n + 1) n [] := rfl

theorem repr_all_digits (n : Nat) :
    (Nat.repr n).data.all Char.isDigit = true := by
  rw [repr_data_eq]
  exact toDigitsCore_all_digits _ _ _ rfl

theorem repr_data_length (n : Nat) :
    (Nat.repr n).data.length = Nat.log 10 n + 1 := by
  rw [repr_data_eq]
  exact toDigitsCore_length_eq (n + 1) n (Nat.lt_succ_self n)

/-- The decimal representation of `n` with `10 ^ k ≤ n < 10 ^ (k + 1)` has
exactly `k + 1` digits. -/
theorem repr_data_length_of_bounds (n k : Nat) (h1 : 10 ^ k ≤ n)
    (h2 : n < 10 ^ (k + 1)) : (Nat.repr n).data.length = k + 1 := by
  rw [repr_data_length n, Nat.log_eq_of_pow_le_of_lt_pow h1 h2]

/-! ### Claim C4 — date normalization -/

/-- Recognizer for the fixed shape `YYYY-MM-DDTHH:MM:SSZ` claimed for the
output of `normalize_date_to_rfc3339`. -/
def isFixedShapeL : List Char → Bool
  | [y1, y2, y3, y4, s1, m1, m2, s2, d1, d2, t1, h1, h2, c1, n1, n2, c2,
      x1, x2, z] =>
    y1.isDigit && y2.isDigit && y3.isDigit && y4.isDigit && s1 == '-' &&
      m1.isDigit && m2.isDigit && s2 == '-' && d1.isDigit && d2.isDigit &&
      t1 == 'T' && h1.isDigit && h2.isDigit && c1 == ':' && n1.isDigit &&
      n2.isDigit && c2 == ':' && x1.isDigit && x2.isDigit && z == 'Z'
  | _ => false

def isFixedShape (s : String) : Bool := isFixedShapeL s.data

theorem length_two_chars : ∀ (l : List Char), l.length = 2 →
    ∃ a b, l = [a, b]
  | [a, b], _ => ⟨a, b, rfl⟩
  | [], h => by simp at h
  | [_], h => by simp at h
  | _ :: _ :: _ :: _, h => by simp at h

theorem length_four_chars : ∀ (l : List Char), l.length = 4 →
    ∃ a b c d, l = [a, b, c, d]
  | [a, b, c, d], _ => ⟨a, b, c, d, rfl⟩
  | [], h => by simp at h
  | [_], h => by simp at h
  | [_, _], h => by simp at h
  | [_, _, _], h => by simp at h
  | _ :: _ :: _ :: _ :: _ :: _, h => by simp at h

theorem pad2_spec : ∀ n : Nat, n < 100 →
    (pad2 n).data.length = 2 ∧ (pad2 n).data.all Char.isDigit = true := by
  decide

theorem pad4_spec : ∀ n : Nat, n < 10000 →
    (pad4 n).data.length = 4 ∧ (pad4 n).data.all Char.isDigit = true := by
  intro n h
  have z3 : ("000" : String).data = ['0', '0', '0'] := rfl
  have z2 : ("00" : String).data = ['0', '0'] := rfl
  have z1 : ("0" : String).data = ['0'] := rfl
  unfold pad4
  by_cases h1 : n < 10
  · rw [if_pos h1]
    have hlen : (Nat.repr n).data.length = 1 := by
      rcases Nat.eq_zero_or_pos n with rfl | hpos
      · rfl
      · exact repr_data_length_of_bounds n 0 (by simpa using hpos)
          (by simpa using h1)
    constructor
    · simp [String.data_append, z3, hlen]
    · simp [String.data_append, z3, List.all_append, repr_all_digits]
  · rw [if_neg h1]
    by_cases h2 : n < 100
    · rw [if_pos h2]
      have hlen : (Nat.repr n).data.length = 2 :=
        repr_data_length_of_bounds n 1 (by norm_num; omega)
          (by norm_num; omega)
      constructor
      · simp [String.data_append, z2, hlen]
      · simp [String.data_append, z2, List.all_append, repr_all_digits]
    · rw [if_neg h2]
      by_cases h3 : n < 1000
      · rw [if_pos h3]
        have hlen : (Nat.repr n).data.length = 3 :=
          repr_data_length_of_bounds n 2 (by norm_num; omega)
            (by norm_num; omega)
        constructor
        · simp [String.data_append, z1, hlen]
        · simp [String.data_append, z1, List.all_append, repr_all_digits]
      · rw [if_neg h3]
        have hlen : (Nat.repr n).data.length = 4 :=
          repr_data_length_of_bounds n 3 (by norm_num; omega)
            (by norm_num; omega)
        exact ⟨hlen, repr_all_digits n⟩

theorem mkDT?_some (y mo d h mi s : Nat) (tz : Option Int) (dt : ParsedDT)
    (hmk : mkDT? y mo d h mi s tz = some dt) :
    dt.year ≤ 9999 ∧ dt.month ≤ 12 ∧ dt.day ≤ 31 ∧ dt.hour ≤ 23 ∧
      dt.minute ≤ 59 ∧ dt.second ≤ 59 ∧ dt.tzoff = tz := by
  unfold mkDT? at hmk
  split at hmk
  · rename_i hcond
    obtain ⟨h1, _, h3, _, h5, h6, h7, h8⟩ := hcond
    cases hmk
    exact ⟨h1, h3, h5, h6, h7, h8, rfl⟩
  · exact Option.noConfusion hmk

theorem dateutilParse_bounds (s : String) (dt : ParsedDT)
    (hp : dateutilParse s = some dt) :
    dt.year ≤ 9999 ∧ dt.month ≤ 12 ∧ dt.day ≤ 31 ∧ dt.hour ≤ 23 ∧
      dt.minute ≤ 59 ∧ dt.second ≤ 59 := by
  unfold dateutilParse at hp
  repeat' split at hp
  all_goals try exact Option.noConfusion hp
  all_goals
    obtain ⟨h1, h2, h3, h4, h5, h6, _⟩ := mkDT?_some _ _ _ _ _ _ _ _ hp
    exact ⟨h1, h2, h3, h4, h5, h6⟩

theorem shape_year_case (t : String) (h : isYearOnly t = true) :
    isFixedShape (t ++ "-01-01T00:00:00Z") = true := by
  unfold isYearOnly at h
  simp only [Bool.and_eq_true, decide_eq_true_eq] at h
  obtain ⟨a1, a2, a3, a4, hdata⟩ := length_four_chars t.data h.1
  have hd := h.2
  rw [hdata] at hd
  simp only [List.all_cons, List.all_nil, Bool.and_true,
    Bool.and_eq_true] at hd
  unfold isFixedShape
  rw [String.data_append, hdata]
  simp [isFixedShapeL, hd.1, hd.2.1, hd.2.2.1, hd.2.2.2]

theorem shape_ymd (y mo d : Nat) (hy : y < 10000) (hmo : mo < 100)
    (hd : d < 100) :
    isFixedShape (pad4 y ++ "-" ++ pad2 mo ++ "-" ++ pad2 d ++
      "T00:00:00Z") = true := by
  obtain ⟨hyl, hyd⟩ := pad4_spec y hy
  obtain ⟨hml, hmd⟩ := pad2_spec mo hmo
  obtain ⟨hdl, hdd⟩ := pad2_spec d hd
  obtain ⟨a1, a2, a3, a4, hA⟩ := length_four_chars _ hyl
  obtain ⟨b1, b2, hB⟩ := length_two_chars _ hml
  obtain ⟨c1, c2, hC⟩ := length_two_chars _ hdl
  rw [hA] at hyd
  rw [hB] at hmd
  rw [hC] at hdd
  simp only [List.all_cons, List.all_nil, Bool.and_true,
    Bool.and_eq_true] at hyd hmd hdd
  unfold isFixedShape
  simp only [String.data_append, hA, hB, hC]
  simp [isFixedShapeL, hyd.1, hyd.2.1, hyd.2.2.1, hyd.2.2.2, hmd.1, hmd.2,
    hdd.1, hdd.2]

theorem shape_iso_naive (dt : ParsedDT) (htz : dt.tzoff = none)
    (hy : dt.year < 10000) (hmo : dt.month < 100) (hd : dt.day < 100)
    (hh : dt.hour < 100) (hmi : dt.minute < 100) (hs : dt.second < 100) :
    isFixedShape (isoformatSec dt ++ "Z") = true := by
  obtain ⟨hyl, hyd⟩ := pad4_spec dt.year hy
  obtain ⟨hml, hmd⟩ := pad2_spec dt.month hmo
  obtain ⟨hdl, hdd⟩ := pad2_spec dt.day hd
  obtain ⟨hhl, hhd⟩ := pad2_spec dt.hour hh
  obtain ⟨hil, hid⟩ := pad2_spec dt.minute hmi
  obtain ⟨hsl, hsd⟩ := pad2_spec dt.second hs
  obtain ⟨a1, a2, a3, a4, hA⟩ := length_four_chars _ hyl
  obtain ⟨b1, b2, hB⟩ := length_two_chars _ hml
  obtain ⟨c1, c2, hC⟩ := length_two_chars _ hdl
  obtain ⟨d1, d2, hD⟩ := length_two_chars _ hhl
  obtain ⟨e1, e2, hE⟩ := length_two_chars _ hil
  obtain ⟨f1, f2, hF⟩ := length_two_chars _ hsl
  rw [hA] at hyd
  rw [hB] at hmd
  rw [hC] at hdd
  rw [hD] at hhd
  rw [hE] at hid
  rw [hF] at hsd
  simp only [List.all_cons, List.all_nil, Bool.and_true,
    Bool.and_eq_true] at hyd hmd hdd hhd hid hsd
  unfold isFixedShape isoformatSec
  rw [htz]
  simp only [String.data_append, hA, hB, hC, hD, hE, hF]
  simp [isFixedShapeL, hyd.1, hyd.2.1, hyd.2.2.1, hyd.2.2.2, hmd.1, hmd.2,
    hdd.1, hdd.2, hhd.1, hhd.2, hid.1, hid.2, hsd.1, hsd.2]

/-- C4 counterexample: the claim says every result has the fixed shape
`YYYY-MM-DDTHH:MM:SSZ`, but a timezone-aware input (the very case the
repository's own test `test_normalize_date_to_rfc3339` documents) yields
`2023-01-15T10:20:30+00:00Z`, which is not of that shape. -/
theorem C4_fixed_shape_counterexample :
    normalize_date_to_rfc3339 (.pyStr "2023-01-15T10:20:30.123Z") =
      "2023-01-15T10:20:30+00:00Z" ∧
    isFixedShape
      (normalize_date_to_rfc3339 (.pyStr "2023-01-15T10:20:30.123Z")) =
      false := by
  decide

/-- C4 (amended): `normalize_date_to_rfc3339` is total; every result either
has the fixed shape `YYYY-MM-DDTHH:MM:SSZ` or comes from an input that
parses to a timezone-aware datetime, in which case it is the datetime's
`isoformat` (offset suffix included) with `Z` appended; `"2023"` maps to
`"2023-01-01T00:00:00Z"`; `None`, non-strings and blank strings map to the
epoch sentinel; and any string that matches neither regex case and fails to
parse maps to the epoch sentinel. -/
theorem C4_date_normalization_amended :
    (∀ d : DateInput,
      isFixedShape (normalize_date_to_rfc3339 d) = true ∨
      ∃ s dt off, d = .pyStr s ∧ dateutilParse (pyStrip s) = some dt ∧
        dt.tzoff = some off ∧
        normalize_date_to_rfc3339 d = isoformatSec dt ++ "Z") ∧
    normalize_date_to_rfc3339 (.pyStr "2023") = "2023-01-01T00:00:00Z" ∧
    normalize_date_to_rfc3339 .pyNone = "1970-01-01T00:00:00Z" ∧
    normalize_date_to_rfc3339 .nonStr = "1970-01-01T00:00:00Z" ∧
    (∀ s : String, isYearOnly (pyStrip s) = false →
      isYearMonth (pyStrip s) = false → dateutilParse (pyStrip s) = none →
      normalize_date_to_rfc3339 (.pyStr s) = "1970-01-01T00:00:00Z") := by
  refine ⟨?_, by decide, by decide, by decide, ?_⟩
  · intro d
    cases d with
    | pyNone => left; decide
    | nonStr => left; decide
    | pyStr s =>
      simp only [normalize_date_to_rfc3339]
      by_cases h0 : pyStrip s = ""
      · left; rw [if_pos h0]; decide
      · rw [if_neg h0]
        by_cases h1 : isYearOnly (pyStrip s) = true
        · left
          rw [if_pos h1]
          exact shape_year_case _ h1
        · rw [if_neg h1]
          by_cases h2 : isYearMonth (pyStrip s) = true
          · left
            rw [if_pos h2]
            rcases hp : dateutilParse (pyStrip s ++ "-01") with _ | dt
            · decide
            · obtain ⟨b1, b2, b3, _, _, _⟩ := dateutilParse_bounds _ _ hp
              exact shape_ymd dt.year dt.month dt.day (by omega) (by omega)
                (by omega)
          · rw [if_neg h2]
            rcases hp : dateutilParse (pyStrip s) with _ | dt
            · left; decide
            · obtain ⟨b1, b2, b3, b4, b5, b6⟩ := dateutilParse_bounds _ _ hp
              rcases htz : dt.tzoff with _ | off
              · left
                exact shape_iso_naive dt htz (by omega) (by omega) (by omega)
                  (by omega) (by omega) (by omega)
              · right
                exact ⟨s, dt, off, rfl, hp, htz, rfl⟩
  · intro s h1 h2 h3
    simp only [normalize_date_to_rfc3339]
    by_cases h0 : pyStrip s = ""
    · rw [if_pos h0]
    · rw [if_neg h0]
      rw [if_neg (by simp [h1]), if_neg (by simp [h2]), h3]

/-- Closed witness for the amended C4: the parse-failure conjunct applied at
the concrete garbage input `"invalid date"`. -/
theorem C4_date_normalization_amended_witness :
    normalize_date_to_rfc3339 (.pyStr "invalid date") =
      "1970-01-01T00:00:00Z" :=
  C4_date_normalization_amended.2.2.2.2 "invalid date" (by decide)
    (by decide) (by decide)

/-! ### Claim C2 — initial chunking indices and ids -/

theorem processChunkBatches_toBatches (mk : Nat → String → ChunkRec)
    (rr : Bool) (recode : List String → List String)
    (hrec : ∀ l, (recode l).length = l.length) (l : List String)
    (start : Nat) :
    (processChunkBatches mk rr recode start (toBatches 5 l)).length =
      l.length ∧
    ∀ i (hi : i < (processChunkBatches mk rr recode start
        (toBatches 5 l)).length),
      ∃ t, (processChunkBatches mk rr recode start (toBatches 5 l)).get
        ⟨i, hi⟩ = mk (start + i + 1) t := by
  cases l with
  | nil =>
    rw [toBatches_nil]
    exact ⟨rfl, fun i hi => absurd hi (by simp [processChunkBatches])⟩
  | cons a l' =>
    rw [toBatches_cons 5 (by norm_num) a l']
    have ih := processChunkBatches_toBatches mk rr recode hrec
      ((a :: l').drop 5) (start + 5)
    obtain ⟨ihlen, ihget⟩ := ih
    set cleaned := if rr then recode ((a :: l').take 5) else (a :: l').take 5
      with hcleaned
    have hcl : cleaned.length = ((a :: l').take 5).length := by
      rw [hcleaned]
      cases rr
      · simp
      · simp [hrec]
    have hstep : processChunkBatches mk rr recode start
        ((a :: l').take 5 :: toBatches 5 ((a :: l').drop 5)) =
        (cleaned.enum.map fun p => mk (start + p.1 + 1) p.2) ++
          processChunkBatches mk rr recode (start + 5)
            (toBatches 5 ((a :: l').drop 5)) := by
      rw [processChunkBatches, hcleaned]
    rw [hstep]
    have hlen : ((cleaned.enum.map fun p => mk (start + p.1 + 1) p.2) ++
        processChunkBatches mk rr recode (start + 5)
          (toBatches 5 ((a :: l').drop 5))).length = (a :: l').length := by
      simp only [List.length_append, List.length_map, List.enum_length,
        hcl, ihlen, List.length_take, List.length_drop, List.length_cons]
      omega
    refine ⟨hlen, ?_⟩
    intro i hi
    have hiN : i < (a :: l').length := by rw [hlen] at hi; exact hi
    have hmaplen : (cleaned.enum.map
        fun p => mk (start + p.1 + 1) p.2).length = cleaned.length := by
      simp
    rw [List.get_eq_getElem]
    by_cases hleft : i < cleaned.length
    · rw [List.getElem_append_left (by rw [hmaplen]; exact hleft),
        List.getElem_map]
      refine ⟨cleaned.get ⟨i, hleft⟩, ?_⟩
      simp [List.getElem_enum, List.get_eq_getElem]
    · push_neg at hleft
      rw [List.getElem_append_right (by rw [hmaplen]; exact hleft)]
      have hcl5 : cleaned.length = min 5 (l'.length + 1) := by
        rw [hcl]
        simp only [List.length_take, List.length_cons]
      have hi2 : i - (cleaned.enum.map
          fun p => mk (start + p.1 + 1) p.2).length <
          (processChunkBatches mk rr recode (start + 5)
            (toBatches 5 ((a :: l').drop 5))).length := by
        rw [hmaplen, ihlen]
        simp only [List.length_drop, List.length_cons]
        simp only [List.length_cons] at hiN
        omega
      obtain ⟨t, ht⟩ := ihget _ hi2
      rw [List.get_eq_getElem] at ht
      refine ⟨t, ?_⟩
      rw [ht]
      -- the take has length exactly 5 whenever indices reach past it
      have h5 : cleaned.length = 5 := by
        simp only [List.length_cons] at hiN
        omega
      congr 1
      rw [hmaplen, h5]
      omega
termination_by l.length
decreasing_by
  simp only [List.length_drop, List.length_cons]
  omega

/-- C2: for a document row with non-blank text that the splitter divides
into `N` raw chunks, the initial chunking stage returns exactly `N` chunk
records in order, with `chunk_index` running `1..N`, `total_chunks = N` on
every record, `doc_id` the decimal string of the `random.randint(10**11,
10**12 - 1)` draw — a 12-digit numeric string shared by all records — and
`id = "{doc_id}_{chunk_index}"`. -/
theorem C2_chunk_count_conservation (split : String → List String)
    (recode : List String → List String) (rand : Nat) (row : RowData)
    (htext : pyStrip row.texteocr ≠ "")
    (hrec : ∀ l, (recode l).length = l.length)
    (hlo : 10 ^ 11 ≤ rand) (hhi : rand < 10 ^ 12) :
    (process_document_chunks split recode rand row).length =
      (split (pyStrip row.texteocr)).length ∧
    (Nat.repr rand).length = 12 ∧
    ∀ i (hi : i < (process_document_chunks split recode rand row).length),
      ((process_document_chunks split recode rand row).get
          ⟨i, hi⟩).doc_id = some (Nat.repr rand) ∧
      ((process_document_chunks split recode rand row).get
          ⟨i, hi⟩).chunk_index = some (i + 1) ∧
      ((process_document_chunks split recode rand row).get
          ⟨i, hi⟩).total_chunks =
        some (split (pyStrip row.texteocr)).length ∧
      ((process_document_chunks split recode rand row).get ⟨i, hi⟩).id =
        Nat.repr rand ++ "_" ++ Nat.repr (i + 1) := by
  have h12 : (Nat.repr rand).length = 12 :=
    repr_data_length_of_bounds rand 11 hlo hhi
  have hproc : process_document_chunks split recode rand row =
      processChunkBatches
        (mkChunkMeta row
          (pyLower (pyStrip (sanitize_metadata_value row.texteocr_provider)))
          (Nat.repr rand) (split (pyStrip row.texteocr)).length)
        (pyLower (pyStrip (sanitize_metadata_value row.texteocr_provider)) ≠
          "mistral")
        recode 0 (toBatches 5 (split (pyStrip row.texteocr))) := by
    unfold process_document_chunks
    rw [if_neg htext]
  obtain ⟨hlen, hget⟩ := processChunkBatches_toBatches
    (mkChunkMeta row
      (pyLower (pyStrip (sanitize_metadata_value row.texteocr_provider)))
      (Nat.repr rand) (split (pyStrip row.texteocr)).length)
    (pyLower (pyStrip (sanitize_metadata_value row.texteocr_provider)) ≠
      "mistral")
    recode hrec (split (pyStrip row.texteocr)) 0
  refine ⟨by rw [hproc]; exact hlen, h12, ?_⟩
  intro i hi
  have hi' : i < (processChunkBatches
      (mkChunkMeta row
        (pyLower (pyStrip (sanitize_metadata_value row.texteocr_provider)))
        (Nat.repr rand) (split (pyStrip row.texteocr)).length)
      (pyLower (pyStrip (sanitize_metadata_value row.texteocr_provider)) ≠
        "mistral")
      recode 0 (toBatches 5 (split (pyStrip row.texteocr)))).length := by
    rw [hproc] at hi
    exact hi
  obtain ⟨t, ht⟩ := hget i hi'
  have hrw : (process_document_chunks split recode rand row).get ⟨i, hi⟩ =
      mkChunkMeta row
        (pyLower (pyStrip (sanitize_metadata_value row.texteocr_provider)))
        (Nat.repr rand) (split (pyStrip row.texteocr)).length (0 + i + 1)
        t := by
    rw [List.get_eq_getElem]
    have := hproc
    revert hi
    rw [this]
    intro hi
    rw [← List.get_eq_getElem, ht]
  rw [hrw]
  have hidx : 0 + i + 1 = i + 1 := by omega
  rw [hidx]
  exact ⟨rfl, rfl, rfl, rfl⟩

/-- Closed witness for C2: one document whose text splits into two raw
chunks yields two records, and the 12-digit doc id has length 12. -/
theorem C2_chunk_count_conservation_witness :
    (process_document_chunks (fun t => [t, t]) (fun l => l) 100000000000
        { texteocr := "Bonjour le monde" }).length = 2 ∧
    (Nat.repr 100000000000).length = 12 := by
  have h := C2_chunk_count_conservation (fun t => [t, t]) (fun l => l)
    100000000000 { texteocr := "Bonjour le monde" } (by decide)
    (fun l => rfl) (by norm_num) (by norm_num)
  exact ⟨h.1, h.2.1⟩

/-! ### Claim C8 — sparse feature extraction -/

theorem pyLower_length (s : String) : (pyLower s).length = s.length := by
  rw [pyLower, String.length_mk, List.length_map]
  rfl

theorem counterKeys_aux_nodup (l : List String) :
    ∀ acc : List String, acc.Nodup →
      (l.foldl (fun acc x => if x ∈ acc then acc else acc ++ [x])
        acc).Nodup := by
  induction l with
  | nil => intro acc h; exact h
  | cons a l ih =>
    intro acc h
    simp only [List.foldl_cons]
    by_cases ha : a ∈ acc
    · rw [if_pos ha]; exact ih acc h
    · rw [if_neg ha]
      refine ih _ ?_
      simp [List.nodup_append, h, ha]

theorem counterKeys_nodup (l : List String) : (counterKeys l).Nodup :=
  counterKeys_aux_nodup l [] List.nodup_nil

theorem pyDictInsert_fresh (k : String) (v : ℚ) :
    ∀ d : List (String × ℚ), k ∉ d.map Prod.fst →
      pyDictInsert k v d = d ++ [(k, v)] := by
  intro d
  induction d with
  | nil => intro _; rfl
  | cons p rest ih =>
    intro h
    obtain ⟨k', v'⟩ := p
    simp only [List.map_cons, List.mem_cons, not_or] at h
    simp only [pyDictInsert, if_neg h.1, List.cons_append]
    rw [ih h.2]

theorem foldl_pyDictInsert (f : String → String) (g : String → ℚ) :
    ∀ (ks : List String) (d : List (String × ℚ)),
      (∀ x ∈ ks, f x ∉ d.map Prod.fst) →
      ks.Pairwise (fun x y => f x ≠ f y) →
      ks.foldl (fun d lem => pyDictInsert (f lem) (g lem) d) d =
        d ++ ks.map fun lem => (f lem, g lem) := by
  intro ks
  induction ks with
  | nil => intro d _ _; simp
  | cons a ks ih =>
    intro d hfresh hpw
    simp only [List.foldl_cons]
    rw [pyDictInsert_fresh (f a) (g a) d (hfresh a (List.mem_cons_self a ks))]
    rw [ih (d ++ [(f a, g a)]) ?_ (List.Pairwise.of_cons hpw)]
    · simp
    · intro x hx
      simp only [List.map_append, List.mem_append, List.map_cons,
        List.map_nil, List.mem_singleton, not_or]
      exact ⟨hfresh x (List.mem_cons_of_mem a hx),
        fun he => (List.rel_of_pairwise_cons hpw hx) he.symm⟩

/-- C8: the sparse extractor retains exactly the lowercased lemmas of
non-stop, non-punctuation tokens with POS in {NOUN, PROPN, ADJ, VERB} and
lemma longer than one character (lowercasing preserves length, so the
retained lemmas are themselves longer than one character); when no index
collision occurs among the retained lemmas, each distinct lemma (in first
occurrence order) contributes the index `hash(lemma) mod 100000` with value
`count / total` (term frequency, no IDF); and a text with no retained
lemmas yields `{indices: [], values: []}`. -/
theorem C8_sparse_feature_extraction (pyhash : String → ℤ)
    (tokens : List Token) :
    (retainedLemmas tokens = [] →
      extract_sparse_features pyhash tokens = ⟨[], []⟩) ∧
    (∀ lem ∈ retainedLemmas tokens, ∃ tok ∈ tokens,
      lem = pyLower tok.lemma' ∧
      (tok.pos = "NOUN" ∨ tok.pos = "PROPN" ∨ tok.pos = "ADJ" ∨
        tok.pos = "VERB") ∧
      tok.is_stop = false ∧ tok.is_punct = false ∧ lem.length > 1) ∧
    (∀ tok ∈ tokens,
      (tok.pos = "NOUN" ∨ tok.pos = "PROPN" ∨ tok.pos = "ADJ" ∨
        tok.pos = "VERB") →
      tok.is_stop = false → tok.is_punct = false → tok.lemma'.length > 1 →
      pyLower tok.lemma' ∈ retainedLemmas tokens) ∧
    ((∀ x ∈ counterKeys (retainedLemmas tokens),
        ∀ y ∈ counterKeys (retainedLemmas tokens),
        toString (pyhash x % 100000) = toString (pyhash y % 100000) →
          x = y) →
      (extract_sparse_features pyhash tokens).indices =
        (counterKeys (retainedLemmas tokens)).map
          (fun lem => toString (pyhash lem % 100000)) ∧
      (extract_sparse_features pyhash tokens).values =
        (counterKeys (retainedLemmas tokens)).map
          (fun lem => ((retainedLemmas tokens).count lem : ℚ) /
            ((retainedLemmas tokens).length : ℚ))) := by
  refine ⟨?_, ?_, ?_, ?_⟩
  · intro hempty
    unfold extract_sparse_features sparseDictFor
    rw [hempty]
    simp
  · intro lem hlem
    unfold retainedLemmas at hlem
    obtain ⟨tok, htokmem, htoklem⟩ := List.mem_map.mp hlem
    have hcond := List.of_mem_filter htokmem
    simp only [decide_eq_true_eq, Bool.and_eq_true] at hcond
    refine ⟨tok, List.mem_of_mem_filter htokmem, htoklem.symm, ?_, ?_, ?_, ?_⟩
    · exact hcond.1
    · exact hcond.2.1
    · exact hcond.2.2.1
    · rw [← htoklem, pyLower_length]
      exact hcond.2.2.2
  · intro tok htok hpos hstop hpunct hlen
    unfold retainedLemmas
    exact List.mem_map.mpr ⟨tok,
      List.mem_filter.mpr ⟨htok, by
        simp only [decide_eq_true_eq, Bool.and_eq_true]
        exact ⟨hpos, hstop, hpunct, hlen⟩⟩, rfl⟩
  · intro hinj
    unfold extract_sparse_features sparseDictFor
    by_cases hz : (retainedLemmas tokens).length > 0
    · rw [if_pos hz]
      have hpw : (counterKeys (retainedLemmas tokens)).Pairwise
          (fun x y => toString (pyhash x % 100000) ≠
            toString (pyhash y % 100000)) := by
        have hnd := counterKeys_nodup (retainedLemmas tokens)
        refine hnd.imp_of_mem ?_
        intro x y hx hy hne he
        exact hne (hinj x hx y hy he)
      rw [foldl_pyDictInsert _ _ _ [] (by simp) hpw]
      simp
    · rw [if_neg hz]
      have : retainedLemmas tokens = [] := by
        simpa using hz
      simp [this, counterKeys]

/-- Token list for the C8 witness: three retainable tokens (one of them a
capitalized duplicate) and one token dropped by the POS filter. -/
def c8WitnessTokens : List Token :=
  [⟨"maison", "NOUN", false, false⟩, ⟨"de", "ADP", false, false⟩,
   ⟨"Maison", "NOUN", false, false⟩, ⟨"grand", "ADJ", false, false⟩]

/-- Closed witness for C8: three retainable tokens (one stop word dropped),
a collision-free hash, indices `hash mod 100000` stringified and values the
term frequencies 2/3 and 1/3. -/
theorem C8_sparse_feature_extraction_witness :
    (extract_sparse_features (fun s => (s.length : ℤ) * 7)
        c8WitnessTokens).indices = ["42", "35"] ∧
    (extract_sparse_features (fun s => (s.length : ℤ) * 7)
        c8WitnessTokens).values = [2 / 3, 1 / 3] := by
  have h := (C8_sparse_feature_extraction (fun s => (s.length : ℤ) * 7)
    c8WitnessTokens).2.2.2 (by decide)
  constructor
  · rw [h.1]; decide
  · rw [h.2]
    have hck : counterKeys (retainedLemmas c8WitnessTokens) =
        ["maison", "grand"] := by decide
    have hc1 : (retainedLemmas c8WitnessTokens).count "maison" = 2 := by
      decide
    have hc2 : (retainedLemmas c8WitnessTokens).count "grand" = 1 := by
      decide
    have hl : (retainedLemmas c8WitnessTokens).length = 3 := by decide
    rw [hck]
    simp only [List.map_cons, List.map_nil, hc1, hc2, hl]
    norm_num

/-! ### Claim C10 — dense stage is count-preserving and frame-respecting -/

/-- A chunk record with its `embedding` key removed: two records agree on
every other key-value pair iff their `stripEmbedding`s are equal. -/
def stripEmbedding (c : ChunkRec) : ChunkRec := { c with embedding := none }

theorem get_embeddings_batch_length
    (attempt retryAttempt : List String → Option (List DenseVec))
    (texts : List String)
    (h1 : ∀ ts es, attempt ts = some es → es.length = ts.length)
    (h2 : ∀ ts es, retryAttempt ts = some es → es.length = ts.length) :
    (get_embeddings_batch attempt retryAttempt texts).length =
      texts.length := by
  unfold get_embeddings_batch
  rcases ha : attempt texts with _ | es
  · rcases hb : retryAttempt texts with _ | es
    · simp
    · simp [h2 _ _ hb]
  · simp [h1 _ _ ha]

theorem process_chunks_for_embedding_strip
    (attempt retryAttempt : List String → Option (List DenseVec))
    (batch : List ChunkRec) :
    (process_chunks_for_embedding attempt retryAttempt batch).length =
      batch.length ∧
    (process_chunks_for_embedding attempt retryAttempt batch).map
        stripEmbedding = batch.map stripEmbedding := by
  constructor
  · simp [process_chunks_for_embedding, List.enumFrom_length]
  · unfold process_chunks_for_embedding
    rw [List.map_map]
    have hfun : (stripEmbedding ∘ fun p : Nat × ChunkRec =>
        if p.1 < (get_embeddings_batch attempt retryAttempt
            (batch.map fun c => c.text.getD "")).length then
          { p.2 with embedding := some ((get_embeddings_batch attempt
              retryAttempt (batch.map fun c => c.text.getD "")).getD p.1
                none) }
        else p.2) = stripEmbedding ∘ Prod.snd := by
      funext p
      by_cases hp : p.1 < (get_embeddings_batch attempt retryAttempt
          (batch.map fun c => c.text.getD "")).length
      · simp [hp, stripEmbedding]
      · simp [hp, stripEmbedding]
    rw [hfun, ← List.map_map]
    congr 1
    exact List.enumFrom_map_snd 0 batch

theorem process_chunks_for_embedding_some
    (attempt retryAttempt : List String → Option (List DenseVec))
    (batch : List ChunkRec)
    (h1 : ∀ ts es, attempt ts = some es → es.length = ts.length)
    (h2 : ∀ ts es, retryAttempt ts = some es → es.length = ts.length) :
    ∀ c ∈ process_chunks_for_embedding attempt retryAttempt batch,
      c.embedding.isSome = true := by
  intro c hc
  unfold process_chunks_for_embedding at hc
  obtain ⟨p, hp, hpc⟩ := List.mem_map.mp hc
  have hidx : p.1 < batch.length := by
    have := List.fst_lt_add_of_mem_enumFrom hp
    simpa using this
  have hlen : (get_embeddings_batch attempt retryAttempt
      (batch.map fun c => c.text.getD "")).length = batch.length := by
    rw [get_embeddings_batch_length attempt retryAttempt _ h1 h2]
    simp
  rw [← hpc]
  rw [if_pos (by rw [hlen]; exact hidx)]
  rfl

theorem mem_flatten_flatten {c : α} {L : List (List (List α))}
    (h : c ∈ (L.map List.flatten).flatten) :
    ∃ l ∈ L, ∃ b ∈ l, c ∈ b := by
  obtain ⟨fl, hfl, hcfl⟩ := List.mem_flatten.mp h
  obtain ⟨l, hl, rfl⟩ := List.mem_map.mp hfl
  obtain ⟨b, hb, hcb⟩ := List.mem_flatten.mp hcfl
  exact ⟨l, hl, b, hb, hcb⟩

/-- C10: the dense embedding stage emits exactly one record per input
record; erasing the `embedding` key from every output record gives, up to
the document regrouping, exactly the input records (so every other
key-value pair is unchanged and only `embedding` is written); and every
output record carries the `embedding` key (a vector on success, `null`
after a failed batch and failed retry).  The hypotheses state the embedding
API's contract that a successful call returns one vector per input text. -/
theorem C10_dense_stage_frame
    (attempt retryAttempt : List String → Option (List DenseVec))
    (all_chunks : List ChunkRec)
    (h1 : ∀ ts es, attempt ts = some es → es.length = ts.length)
    (h2 : ∀ ts es, retryAttempt ts = some es → es.length = ts.length) :
    (generate_and_save_embeddings attempt retryAttempt all_chunks).length =
      all_chunks.length ∧
    List.Perm
      ((generate_and_save_embeddings attempt retryAttempt all_chunks).map
        stripEmbedding)
      (all_chunks.map stripEmbedding) ∧
    (∀ c ∈ generate_and_save_embeddings attempt retryAttempt all_chunks,
      c.embedding.isSome = true) ∧
    (∀ batch : List ChunkRec,
      (process_chunks_for_embedding attempt retryAttempt batch).length =
        batch.length ∧
      (process_chunks_for_embedding attempt retryAttempt batch).map
        stripEmbedding = batch.map stripEmbedding) := by
  have hgroupstrip :
      (generate_and_save_embeddings attempt retryAttempt all_chunks).map
        stripEmbedding =
      (((groupByKey (fun c => c.doc_id.getD "unknown_doc")
        all_chunks).map Prod.snd).flatten).map stripEmbedding := by
    unfold generate_and_save_embeddings
    rw [List.map_flatten, List.map_map, List.map_flatten, List.map_map]
    congr 1
    apply List.map_congr_left
    intro g _
    simp only [Function.comp]
    rw [List.map_flatten, List.map_map]
    have : (List.map stripEmbedding ∘
        process_chunks_for_embedding attempt retryAttempt) =
        List.map stripEmbedding := by
      funext b
      exact (process_chunks_for_embedding_strip attempt retryAttempt b).2
    rw [this]
    rw [← List.map_flatten, flatten_toBatches 32 (by norm_num)]
  have hperm : List.Perm
      ((generate_and_save_embeddings attempt retryAttempt all_chunks).map
        stripEmbedding)
      (all_chunks.map stripEmbedding) := by
    rw [hgroupstrip]
    exact (flatten_groupByKey _ all_chunks).map stripEmbedding
  have hlen :
      (generate_and_save_embeddings attempt retryAttempt
        all_chunks).length = all_chunks.length := by
    have := hperm.length_eq
    simpa using this
  refine ⟨hlen, hperm, ?_, fun batch =>
    process_chunks_for_embedding_strip attempt retryAttempt batch⟩
  intro c hc
  unfold generate_and_save_embeddings at hc
  obtain ⟨fl, hfl, hcfl⟩ := List.mem_flatten.mp hc
  obtain ⟨g, _, rfl⟩ := List.mem_map.mp hfl
  obtain ⟨pb, hpb, hcpb⟩ := List.mem_flatten.mp hcfl
  obtain ⟨b, _, rfl⟩ := List.mem_map.mp hpb
  exact process_chunks_for_embedding_some attempt retryAttempt b h1 h2 c hcpb

/-- Closed witness for C10: a two-document collection where the first API
attempt fails for the second document's batch and the retry succeeds; the
stage emits one record per input record and every record carries an
embedding key. -/
theorem C10_dense_stage_frame_witness :
    (generate_and_save_embeddings
        (fun ts => if ts.length = 1 then some [[1, 2]] else none)
        (fun ts => some (ts.map fun _ => [3]))
        [{ id := "a_1", doc_id := some "a", text := some "alpha" },
         { id := "b_1", doc_id := some "b", text := some "beta" },
         { id := "a_2", doc_id := some "a", text := some "gamma" }]).length =
      3 := by
  have h := C10_dense_stage_frame
    (fun ts => if ts.length = 1 then some [[1, 2]] else none)
    (fun ts => some (ts.map fun _ => [3]))
    [{ id := "a_1", doc_id := some "a", text := some "alpha" },
     { id := "b_1", doc_id := some "b", text := some "beta" },
     { id := "a_2", doc_id := some "a", text := some "gamma" }]
    (by
      intro ts es hts
      simp only [] at hts
      by_cases hl : ts.length = 1
      · rw [if_pos hl] at hts
        cases hts
        simpa using hl.symm
      · rw [if_neg hl] at hts
        exact Option.noConfusion hts)
    (by
      intro ts es hts
      simp only [] at hts
      cases hts
      simp)
  exact h.1

/-! ### Claim C6 — Pinecone insertion: retry, batching, statuses -/

theorem prepare_pinecone_length (chunks : List ChunkRec) :
    (prepare_vectors_for_pinecone chunks).1.length =
      chunks.countP fun c => c.getEmbedding.isSome := by
  induction chunks with
  | nil => simp [prepare_vectors_for_pinecone]
  | cons c rest ih =>
    rcases hc : c.getEmbedding with _ | d <;>
      simp [prepare_vectors_for_pinecone, hc, List.countP_cons, ih]

theorem countP_flatten_sum (p : α → Bool) :
    ∀ L : List (List α), (L.flatten).countP p = (L.map (List.countP p)).sum := by
  intro L
  induction L with
  | nil => simp
  | cons b bs ih => simp [List.countP_append, ih]

/-- The Pinecone batch plan covers exactly the loaded chunks (a
permutation: grouping by document then slicing into batches of 100). -/
theorem pineconeBatchPlan_flatten_perm (chunks : List ChunkRec) :
    List.Perm (pineconeBatchPlan chunks).flatten chunks := by
  unfold pineconeBatchPlan
  rw [List.flatten_flatten, List.map_map]
  have : (List.flatten ∘ fun g : String × List ChunkRec =>
      toBatches 100 g.2) = Prod.snd := by
    funext g
    exact flatten_toBatches 100 (by norm_num) g.2
  rw [this]
  exact flatten_groupByKey _ chunks

theorem runBatches_sizes (oracle : Nat → Bool × Bool) :
    ∀ (plan : List (List ChunkRec)) (k : Nat),
      ((pineconeRunBatches oracle k plan).map Prod.fst).sum =
        (plan.map fun b => (prepare_vectors_for_pinecone b).1.length).sum := by
  intro plan
  induction plan with
  | nil => intro k; rfl
  | cons b bs ih =>
    intro k
    by_cases hb : (prepare_vectors_for_pinecone b).1.isEmpty
    · have h0 : (prepare_vectors_for_pinecone b).1.length = 0 := by
        simpa [List.isEmpty_iff_length_eq_zero] using hb
      simp [pineconeRunBatches, hb, ih k, h0]
    · simp [pineconeRunBatches, hb, ih (k + 1)]

theorem runBatches_allok (oracle : Nat → Bool × Bool)
    (hok : ∀ k, (oracle k).1 = true ∨ (oracle k).2 = true) :
    ∀ (plan : List (List ChunkRec)) (k : Nat),
      ∀ p ∈ pineconeRunBatches oracle k plan, p.2 = true := by
  intro plan
  induction plan with
  | nil => intro k p hp; simp [pineconeRunBatches] at hp
  | cons b bs ih =>
    intro k p hp
    by_cases hb : (prepare_vectors_for_pinecone b).1.isEmpty
    · simp only [pineconeRunBatches, hb, if_pos] at hp
      exact ih k p hp
    · simp only [pineconeRunBatches, hb, Bool.false_eq_true, if_false] at hp
      rcases List.mem_cons.mp hp with rfl | hp'
      · unfold upsert_batch_to_pinecone
        rcases hok k with h | h
        · simp [h]
        · rcases h1 : (oracle k).1 <;> simp [h, h1]
      · exact ih (k + 1) p hp'

theorem sum_ite_eq_sum_filter (l : List (Nat × Bool)) :
    (l.map fun p => if p.2 then p.1 else 0).sum =
      ((l.filter Prod.snd).map Prod.fst).sum := by
  induction l with
  | nil => rfl
  | cons p rest ih =>
    rcases hp : p.2 with _ | _ <;> simp [List.filter_cons, hp, ih]

/-- C6: `upsert_batch_to_pinecone` succeeds exactly when the first attempt
or its single retry succeeds; `insert_to_pinecone`'s `inserted_count` is
the number of vectors in successfully upserted batches; every batch is
processed (a batch failure never halts the run: the prepared sizes of all
batches, before and after a failure, always total the number of chunks
with a non-null embedding); the final status is `partial_error` exactly
when some batch failed; and with no batch failure the status is `success`
when all prepared vectors upserted (inserted = all chunks),
`success_partial_data` when some source chunks were invalid but the valid
ones upserted, and `error` when nothing was inserted from a non-empty
collection. -/
theorem C6_pinecone_insert_protocol (oracle : Nat → Bool × Bool)
    (all_chunks : List ChunkRec) :
    (∀ a b : Bool, upsert_batch_to_pinecone a b = (a || b)) ∧
    ((insert_to_pinecone_core oracle all_chunks).inserted_count =
      (((pineconeRunBatches oracle 0 (pineconeBatchPlan all_chunks)).filter
        Prod.snd).map Prod.fst).sum) ∧
    (((pineconeRunBatches oracle 0 (pineconeBatchPlan all_chunks)).map
        Prod.fst).sum =
      all_chunks.countP fun c => c.getEmbedding.isSome) ∧
    ((insert_to_pinecone_core oracle all_chunks).status = "partial_error" ↔
      ∃ p ∈ pineconeRunBatches oracle 0 (pineconeBatchPlan all_chunks),
        p.2 = false) ∧
    ((∀ k, (oracle k).1 = true ∨ (oracle k).2 = true) →
      (insert_to_pinecone_core oracle all_chunks).inserted_count =
        (all_chunks.countP fun c => c.getEmbedding.isSome) ∧
      ((insert_to_pinecone_core oracle all_chunks).status = "success" ↔
        (insert_to_pinecone_core oracle all_chunks).inserted_count =
          all_chunks.length) ∧
      ((insert_to_pinecone_core oracle all_chunks).status = "error" ↔
        all_chunks ≠ [] ∧
          ∀ c ∈ all_chunks, c.getEmbedding.isSome = false) ∧
      ((insert_to_pinecone_core oracle all_chunks).status =
          "success_partial_data" ↔
        (∃ c ∈ all_chunks, c.getEmbedding.isSome = true) ∧
        (∃ c ∈ all_chunks, c.getEmbedding.isSome = false))) := by
  have hcount : ((pineconeRunBatches oracle 0
      (pineconeBatchPlan all_chunks)).map Prod.fst).sum =
      all_chunks.countP fun c => c.getEmbedding.isSome := by
    rw [runBatches_sizes oracle (pineconeBatchPlan all_chunks) 0]
    have h1 : ((pineconeBatchPlan all_chunks).map
        fun b => (prepare_vectors_for_pinecone b).1.length).sum =
        ((pineconeBatchPlan all_chunks).map
          (List.countP fun c => c.getEmbedding.isSome)).sum := by
      congr 1
      apply List.map_congr_left
      intro b _
      exact prepare_pinecone_length b
    rw [h1, ← countP_flatten_sum]
    exact (pineconeBatchPlan_flatten_perm all_chunks).countP_eq _
  have hproc : ((pineconeBatchPlan all_chunks).map List.length).sum =
      all_chunks.length := by
    rw [← List.length_flatten]
    exact (pineconeBatchPlan_flatten_perm all_chunks).length_eq
  have hinsfield : ∀ st : String,
      (insert_to_pinecone_core oracle all_chunks).inserted_count =
      ((pineconeRunBatches oracle 0 (pineconeBatchPlan all_chunks)).map
        fun p => if p.2 then p.1 else 0).sum := by
    intro _
    unfold insert_to_pinecone_core
    split_ifs <;> rfl
  refine ⟨?_, ?_, hcount, ?_, ?_⟩
  · intro a b
    unfold upsert_batch_to_pinecone
    cases a <;> cases b <;> rfl
  · rw [hinsfield "", sum_ite_eq_sum_filter]
  · unfold insert_to_pinecone_core
    by_cases hany : ((pineconeRunBatches oracle 0
        (pineconeBatchPlan all_chunks)).any fun p => !p.2) = true
    · rw [if_pos hany]
      simp only [true_iff]
      obtain ⟨p, hp, hp2⟩ := List.any_eq_true.mp hany
      exact ⟨p, hp, by simpa using hp2⟩
    · rw [if_neg hany]
      have hnone : ∀ p ∈ pineconeRunBatches oracle 0
          (pineconeBatchPlan all_chunks), p.2 = true := by
        rw [Bool.not_eq_true] at hany
        intro p hp
        have := List.any_eq_false.mp hany p hp
        simpa using this
      split_ifs <;>
        simp only [PineconeResult.status] <;>
        constructor <;>
        intro h <;>
        first
        | exact absurd h (by decide)
        | (obtain ⟨p, hp, hp2⟩ := h
           exact absurd (hnone p hp) (by simp [hp2]))
  · intro hok
    have hall : ∀ p ∈ pineconeRunBatches oracle 0
        (pineconeBatchPlan all_chunks), p.2 = true :=
      runBatches_allok oracle hok (pineconeBatchPlan all_chunks) 0
    have hany : ((pineconeRunBatches oracle 0
        (pineconeBatchPlan all_chunks)).any fun p => !p.2) = false := by
      rw [List.any_eq_false]
      intro p hp
      simp [hall p hp]
    have hins : ((pineconeRunBatches oracle 0
        (pineconeBatchPlan all_chunks)).map
          fun p => if p.2 then p.1 else 0).sum =
        all_chunks.countP fun c => c.getEmbedding.isSome := by
      rw [sum_ite_eq_sum_filter, List.filter_eq_self.mpr hall, hcount]
    refine ⟨by rw [hinsfield "", hins], ?_, ?_, ?_⟩
    · unfold insert_to_pinecone_core
      rw [hany]
      simp only [Bool.false_eq_true, if_false]
      split_ifs with hA hB
      · simp only [PineconeResult.status, PineconeResult.inserted_count]
        constructor
        · intro h; exact absurd h (by decide)
        · intro h
          rw [hins] at hA h
          omega
      · simp only [PineconeResult.status, PineconeResult.inserted_count]
        constructor
        · intro h; exact absurd h (by decide)
        · intro h
          rw [hins] at hB h
          rw [hproc] at hB
          omega
      · simp only [PineconeResult.status, PineconeResult.inserted_count]
        constructor
        · intro _
          rw [hins]
          rw [hins] at hA hB
          rw [hproc] at hB
          have hle := List.countP_le_length
            (p := fun c => c.getEmbedding.isSome) (l := all_chunks)
          omega
        · intro _; trivial
    · unfold insert_to_pinecone_core
      rw [hany]
      simp only [Bool.false_eq_true, if_false]
      split_ifs with hA hB
      · simp only [PineconeResult.status]
        rw [hins] at hA
        simp only [true_iff]
        refine ⟨by rintro rfl; simp at hA, ?_⟩
        intro c hc
        have := List.countP_eq_zero.mp hA.1 c hc
        simpa using this
      · simp only [PineconeResult.status]
        constructor
        · intro h; exact absurd h (by decide)
        · rintro ⟨hne, hinv⟩
          rw [hins] at hA
          exact absurd ⟨List.countP_eq_zero.mpr
            (fun c hc => by simp [hinv c hc]),
            by cases all_chunks with
               | nil => exact absurd rfl hne
               | cons a l => simp⟩ hA
      · simp only [PineconeResult.status]
        constructor
        · intro h; exact absurd h (by decide)
        · rintro ⟨hne, hinv⟩
          rw [hins] at hA
          exact absurd ⟨List.countP_eq_zero.mpr
            (fun c hc => by simp [hinv c hc]),
            by cases all_chunks with
               | nil => exact absurd rfl hne
               | cons a l => simp⟩ hA
    · unfold insert_to_pinecone_core
      rw [hany]
      simp only [Bool.false_eq_true, if_false]
      split_ifs with hA hB
      · simp only [PineconeResult.status]
        constructor
        · intro h; exact absurd h (by decide)
        · rintro ⟨⟨c, hc, hcv⟩, _⟩
          rw [hins] at hA
          have : 0 < all_chunks.countP fun c => c.getEmbedding.isSome :=
            List.countP_pos_iff.mpr ⟨c, hc, hcv⟩
          omega
      · simp only [PineconeResult.status]
        rw [hins] at hA hB
        rw [hproc] at hB
        simp only [true_iff]
        constructor
        · refine List.countP_pos_iff.mp ?_
          by_cases hz : all_chunks.length > 0
          · have := not_and.mp hA
            omega
          · omega
        · by_contra hno
          push_neg at hno
          have : all_chunks.countP (fun c => c.getEmbedding.isSome) =
              all_chunks.length :=
            List.countP_eq_length.mpr (fun c hc => by
              have hthis := hno c hc
              cases hcase : c.getEmbedding.isSome
              · exact absurd hcase hthis
              · rfl)
          omega
      · simp only [PineconeResult.status]
        constructor
        · intro h; exact absurd h (by decide)
        · rintro ⟨⟨c, hc, hcv⟩, ⟨c', hc', hcv'⟩⟩
          rw [hins] at hB
          rw [hproc] at hB
          have hlt : all_chunks.countP (fun c => c.getEmbedding.isSome) <
              all_chunks.length := by
            rcases Nat.lt_or_ge (all_chunks.countP
              fun c => c.getEmbedding.isSome) all_chunks.length with h | h
            · exact h
            · have heq : all_chunks.countP
                  (fun c => c.getEmbedding.isSome) = all_chunks.length := by
                have := List.countP_le_length
                  (p := fun c => c.getEmbedding.isSome) (l := all_chunks)
                omega
              have := List.countP_eq_length.mp heq c' hc'
              simp [hcv'] at this
          omega

/-- Closed witness for C6: two chunks of one document, one valid and one
with a null embedding, all upsert calls succeeding on first attempt — the
insertion reports `success_partial_data` with one inserted vector. -/
theorem C6_pinecone_insert_protocol_witness :
    (insert_to_pinecone_core (fun _ => (true, true))
        [{ id := "d_1", doc_id := some "d",
           embedding := some (some [1, 2]) },
         { id := "d_2", doc_id := some "d", embedding := some none }]) =
      { status := "success_partial_data", inserted_count := 1 } := by
  have h := (C6_pinecone_insert_protocol (fun _ => (true, true))
    [{ id := "d_1", doc_id := some "d", embedding := some (some [1, 2]) },
     { id := "d_2", doc_id := some "d", embedding := some none }]).2.2.2.2
    (fun k => Or.inl rfl)
  have hstat := h.2.2.2.mpr
    ⟨⟨_, List.mem_cons_self _ _, rfl⟩,
     ⟨_, List.mem_cons_of_mem _ (List.mem_cons_self _ _), rfl⟩⟩
  have hcnt := h.1
  have : (insert_to_pinecone_core (fun _ => (true, true))
      [{ id := "d_1", doc_id := some "d", embedding := some (some [1, 2]) },
       { id := "d_2", doc_id := some "d",
         embedding := some none }]).inserted_count = 1 := by
    rw [hcnt]
    decide
  cases hres : insert_to_pinecone_core (fun _ => (true, true))
    [{ id := "d_1", doc_id := some "d", embedding := some (some [1, 2]) },
     { id := "d_2", doc_id := some "d", embedding := some none }]
  rw [hres] at hstat this
  simp only [PineconeResult.status] at hstat
  simp only [PineconeResult.inserted_count] at this
  rw [hstat, this]

end Ragpy
